import Mathlib

/-!
Verification of the rate-limited, cached remote-request engine of
`video_factory/src/llm_engine.py` (classes `ResponseCache`, `RateLimiter`,
`LLMEngine`).  Wall-clock times, bucket contents and temperatures are modelled
as exact rationals (`ℚ`); Python `int` configuration values are modelled as
`ℤ`/`ℕ` as appropriate.  Python exceptions are modelled by explicit result
constructors.  Unbounded `while` loops are modelled with explicit fuel, with
lemmas showing the chosen fuel suffices on the states that actually arise.
All limiter mutation happens under `self._lock`, so every concurrent schedule
of callers linearizes into a sequence of atomic loop iterations; the trace
semantics below quantifies over all such sequences.
-/

namespace VideoFactory

/-- Configuration of a `RateLimiter` as normalized by `RateLimiter.__init__`
(lines 95–99): `rpm = max(1, rpm_limit)`, `tpm = max(1, tpm_limit)`,
`rpd = max(0, rpd_limit)`. -/
structure RLCfg where
  rpm : ℤ
  tpm : ℤ
  rpd : ℤ
deriving DecidableEq

/-- The normalization performed by `RateLimiter.__init__` on its raw `int`
arguments. -/
def mkRLCfg (rpmLimit tpmLimit rpdLimit : ℤ) : RLCfg :=
  { rpm := max 1 rpmLimit, tpm := max 1 tpmLimit, rpd := max 0 rpdLimit }

/-- The bounds `__init__` guarantees for every constructed configuration. -/
def RLCfg.Valid (cfg : RLCfg) : Prop :=
  1 ≤ cfg.rpm ∧ 1 ≤ cfg.tpm ∧ 0 ≤ cfg.rpd

instance (cfg : RLCfg) : Decidable cfg.Valid := by
  unfold RLCfg.Valid; infer_instance

/-- Day index of a wall-clock instant; models `time.strftime("%Y-%m-%d")`
(two instants produce the same string exactly when they fall in the same
calendar day). -/
def dayOf (t : ℚ) : ℤ := ⌊t / 86400⌋

/-- Mutable state of a `RateLimiter`: the two token buckets, the refill
timestamp, and the daily counter with its day stamp (lines 100–106). -/
structure RLState where
  requestTokens : ℚ
  tokenTokens : ℚ
  lastRefill : ℚ
  day : ℤ
  dailyRequests : ℕ
deriving DecidableEq

/-- State built by `RateLimiter.__init__` at creation instant `now`:
both buckets start full, daily counter at zero. -/
def RLState.init (cfg : RLCfg) (now : ℚ) : RLState :=
  { requestTokens := (cfg.rpm : ℚ), tokenTokens := (cfg.tpm : ℚ),
    lastRefill := now, day := dayOf now, dailyRequests := 0 }

/-- `RateLimiter._refill` (lines 108–115): proportional continuous refill of
both buckets, capped at the limits; a non-positive elapsed time is a no-op. -/
def RLState.refill (st : RLState) (cfg : RLCfg) (now : ℚ) : RLState :=
  if now - st.lastRefill ≤ 0 then st
  else
    { st with
      requestTokens :=
        min (cfg.rpm : ℚ) (st.requestTokens + ((cfg.rpm : ℚ) / 60) * (now - st.lastRefill)),
      tokenTokens :=
        min (cfg.tpm : ℚ) (st.tokenTokens + ((cfg.tpm : ℚ) / 60) * (now - st.lastRefill)),
      lastRefill := now }

/-- `RateLimiter._check_daily_reset` (lines 117–121): on a calendar-day
rollover, stamp the new day and zero the daily counter. -/
def RLState.checkDailyReset (st : RLState) (now : ℚ) : RLState :=
  if dayOf now ≠ st.day then { st with day := dayOf now, dailyRequests := 0 } else st

/-- Outcome of one iteration of the `while` loop inside `RateLimiter.acquire`
(lines 131–146): admission, the daily-limit `RuntimeError`, or the computed
sleep duration before the next iteration. -/
inductive AttemptResult
  | admitted
  | dailyExceeded
  | wouldWait (waitTime : ℚ)
deriving DecidableEq

/-- Debit performed on admission (lines 138–140): one request token,
`tokens_needed` unit tokens, and one daily request. -/
def RLState.debit (st : RLState) (tokensNeeded : ℕ) : RLState :=
  { st with
    requestTokens := st.requestTokens - 1,
    tokenTokens := st.tokenTokens - (tokensNeeded : ℚ),
    dailyRequests := st.dailyRequests + 1 }

/-- Sleep duration computed when capacity is insufficient (lines 142–146):
`max(wait_request, wait_tokens, 0.25)` with each wait `deficit / limit * 60`
when the corresponding deficit is nonzero. -/
def waitFor (cfg : RLCfg) (st : RLState) (tokensNeeded : ℕ) : ℚ :=
  max (max
      (if max 0 (1 - st.requestTokens) ≠ 0 then
        max 0 (1 - st.requestTokens) / (cfg.rpm : ℚ) * 60 else 0)
      (if max 0 ((tokensNeeded : ℚ) - st.tokenTokens) ≠ 0 then
        max 0 ((tokensNeeded : ℚ) - st.tokenTokens) / (cfg.tpm : ℚ) * 60 else 0))
    (1 / 4)

/-- One iteration of the admission loop of `RateLimiter.acquire`
(lines 131–146), executed under the lock: daily reset and daily-cap check,
refill, then either debit both buckets and bump the daily counter, or report
the wait for the deficits. -/
def RLState.attempt (st : RLState) (cfg : RLCfg) (now : ℚ) (tokensNeeded : ℕ) :
    RLState × AttemptResult :=
  if cfg.rpd ≠ 0 ∧ cfg.rpd ≤ ((st.checkDailyReset now).dailyRequests : ℤ) then
    (st.checkDailyReset now, .dailyExceeded)
  else if 1 ≤ ((st.checkDailyReset now).refill cfg now).requestTokens ∧
      (tokensNeeded : ℚ) ≤ ((st.checkDailyReset now).refill cfg now).tokenTokens then
    (((st.checkDailyReset now).refill cfg now).debit tokensNeeded, .admitted)
  else
    ((st.checkDailyReset now).refill cfg now,
      .wouldWait (waitFor cfg ((st.checkDailyReset now).refill cfg now) tokensNeeded))

/-- A trace of admission-loop iterations, each at a wall-clock instant with a
`tokens_needed` argument; the returned list is the subsequence of admitted
iterations.  Each iteration runs under the limiter lock, so every concurrent
schedule of `acquire` calls linearizes into such a trace. -/
def runAttempts (cfg : RLCfg) : RLState → List (ℚ × ℕ) → RLState × List (ℚ × ℕ)
  | st, [] => (st, [])
  | st, (t, n) :: rest =>
    let p := st.attempt cfg t n
    let q := runAttempts cfg p.1 rest
    match p.2 with
    | .admitted => (q.1, (t, n) :: q.2)
    | _ => (q.1, q.2)

/-- Number of admissions whose instant lies in the trailing window `(s, s+60]`. -/
def windowRequests (s : ℚ) (evs : List (ℚ × ℕ)) : ℕ :=
  (evs.filter (fun e => decide (s < e.1 ∧ e.1 ≤ s + 60))).length

/-- Total admitted token units over the trailing window `(s, s+60]`. -/
def windowUnits (s : ℚ) (evs : List (ℚ × ℕ)) : ℕ :=
  ((evs.filter (fun e => decide (s < e.1 ∧ e.1 ≤ s + 60))).map Prod.snd).sum

/-- Iteration instants are chronological: at or after the lower bound `t0`,
and pairwise nondecreasing. -/
def Chron (t0 : ℚ) (l : List (ℚ × ℕ)) : Prop :=
  (∀ e ∈ l, t0 ≤ e.1) ∧ l.Pairwise (fun a b => a.1 ≤ b.1)

instance (t0 : ℚ) (l : List (ℚ × ℕ)) : Decidable (Chron t0 l) := by
  unfold Chron; infer_instance

/-- Result of a full `RateLimiter.acquire` admission (up to the `yield`):
either admission together with the post-admission limiter state, the
wall-clock instant after the waits, and the list of sleeps performed, or one
of the two `RuntimeError` raises (carrying the state and instant at the
raise), or fuel exhaustion (a model artifact for the unbounded loop). -/
inductive AcquireResult
  | admitted (st : RLState) (now : ℚ) (waits : List ℚ)
  | quotaUnsatisfiable (st : RLState) (now : ℚ)
  | dailyExceeded (st : RLState) (now : ℚ) (waits : List ℚ)
  | outOfFuel
deriving DecidableEq

/-- The admission loop of `RateLimiter.acquire` with fuel: each failed
iteration sleeps for the computed wait (advancing the clock) and retries. -/
def acquireLoop (cfg : RLCfg) : ℕ → RLState → ℚ → ℕ → List ℚ → AcquireResult
  | 0, _, _, _, _ => .outOfFuel
  | fuel + 1, st, now, n, waits =>
    let p := st.attempt cfg now n
    match p.2 with
    | .admitted => .admitted p.1 now waits
    | .dailyExceeded => .dailyExceeded p.1 now waits
    | .wouldWait w => acquireLoop cfg fuel p.1 (now + w) n (waits ++ [w])

/-- `RateLimiter.acquire` (lines 123–148) up to the `yield`: the
`tokens_needed > tpm` guard raises before anything is touched; otherwise the
admission loop runs (fuel 2 suffices on sane states, proved below). -/
def acquire (cfg : RLCfg) (st : RLState) (now : ℚ) (tokensNeeded : ℕ) (fuel : ℕ) :
    AcquireResult :=
  if cfg.tpm < (tokensNeeded : ℤ) then .quotaUnsatisfiable st now
  else acquireLoop cfg fuel st now tokensNeeded []

/-- Behavior of the caller's body at the `yield` point of the `acquire`
context manager: it either completes normally or raises. -/
inductive BodyOutcome
  | ok
  | raises
deriving DecidableEq

/-- How an `acquire` scope ends. -/
inductive ScopeExit
  | completed
  | bodyError
  | dailyError
  | quotaError
  | fuelExhausted
deriving DecidableEq

/-- The whole `acquire` context-manager scope, tracking the concurrency
semaphore's available-permit count: the guard raises before
`semaphore.acquire()`; the loop and the `yield` run inside `try`, and the
`finally` releases the semaphore on normal completion, on the daily-limit
raise, and on an exception from the body. -/
def acquireScope (cfg : RLCfg) (sem : ℕ) (st : RLState) (now : ℚ) (tokensNeeded : ℕ)
    (fuel : ℕ) (body : BodyOutcome) : ScopeExit × ℕ :=
  if cfg.tpm < (tokensNeeded : ℤ) then (.quotaError, sem)
  else
    match acquireLoop cfg fuel st now tokensNeeded [] with
    | .dailyExceeded _ _ _ => (.dailyError, sem - 1 + 1)
    | .quotaUnsatisfiable _ _ => (.quotaError, sem - 1 + 1)
    | .outOfFuel => (.fuelExhausted, sem - 1)
    | .admitted _ _ _ =>
      match body with
      | .ok => (.completed, sem - 1 + 1)
      | .raises => (.bodyError, sem - 1 + 1)

/-- Invariant on the two token buckets: each holds between zero and its
configured limit. -/
def RLState.Inv (st : RLState) (cfg : RLCfg) : Prop :=
  0 ≤ st.requestTokens ∧ st.requestTokens ≤ (cfg.rpm : ℚ) ∧
    0 ≤ st.tokenTokens ∧ st.tokenTokens ≤ (cfg.tpm : ℚ)

instance (st : RLState) (cfg : RLCfg) : Decidable (st.Inv cfg) := by
  unfold RLState.Inv; infer_instance

/-! Cache model (`ResponseCache`, lines 43–91).  The in-memory dict maps a
cache key to a `CacheEntry`; keys are generic so the same model covers the
in-memory keyed cache and the string-keyed durable snapshot. -/

/-- A cache entry (`CacheEntry` dataclass, lines 37–40). -/
structure CacheEntry where
  expiresAt : ℚ
  value : String
deriving DecidableEq

/-- Lookup in the dict (`self._cache.get(key)`). -/
def cacheLookup {κ : Type} [DecidableEq κ] (c : List (κ × CacheEntry)) (k : κ) :
    Option CacheEntry :=
  (c.find? (fun e => decide (e.1 = k))).map Prod.snd

/-- Removal from the dict (`self._cache.pop(key, None)`). -/
def cacheErase {κ : Type} [DecidableEq κ] (c : List (κ × CacheEntry)) (k : κ) :
    List (κ × CacheEntry) :=
  c.filter (fun e => decide (e.1 ≠ k))

/-- Dict assignment `self._cache[key] = entry`. -/
def cacheUpdate {κ : Type} [DecidableEq κ] (c : List (κ × CacheEntry)) (k : κ)
    (e : CacheEntry) : List (κ × CacheEntry) :=
  (k, e) :: cacheErase c k

/-- `ResponseCache.get` (lines 76–85): a missing or expired entry reads as
absent; an expired entry found on read is evicted (and a re-persist is
triggered).  Returns the read result and the dict afterwards. -/
def cacheGet {κ : Type} [DecidableEq κ] (c : List (κ × CacheEntry)) (k : κ)
    (now : ℚ) : Option String × List (κ × CacheEntry) :=
  match cacheLookup c k with
  | none => (none, c)
  | some e => if e.expiresAt ≤ now then (none, cacheErase c k) else (some e.value, c)

/-- `ResponseCache.set` (lines 87–91): store with `expires_at = now + ttl`,
overwriting unconditionally, then persist. -/
def cacheSet {κ : Type} [DecidableEq κ] (c : List (κ × CacheEntry)) (k : κ)
    (v : String) (now ttl : ℚ) : List (κ × CacheEntry) :=
  cacheUpdate c k ⟨now + ttl, v⟩

/-- Result of the durable-store write attempted by `ResponseCache._persist`. -/
inductive PersistOutcome
  | ok
  | ioFailure
deriving DecidableEq

/-- `ResponseCache._persist` (lines 66–74): an `OSError` from the write is
caught and logged; nothing else happens.  Returns the log lines emitted. -/
def persistLogs : PersistOutcome → List String
  | .ok => []
  | .ioFailure => ["[LLM] Failed to write cache file"]

/-- `ResponseCache.set` together with its write-through persist: the dict
update happens regardless of the persist outcome, which is only logged. -/
def cacheSetPersist {κ : Type} [DecidableEq κ] (c : List (κ × CacheEntry)) (k : κ)
    (v : String) (now ttl : ℚ) (w : PersistOutcome) :
    List (κ × CacheEntry) × List String :=
  (cacheSet c k v now ttl, persistLogs w)

/-- `ResponseCache.get` together with the re-persist it triggers when it
evicts an expired entry: the read result and the dict are independent of the
persist outcome, which is only logged. -/
def cacheGetPersist {κ : Type} [DecidableEq κ] (c : List (κ × CacheEntry)) (k : κ)
    (now : ℚ) (w : PersistOutcome) :
    (Option String × List (κ × CacheEntry)) × List String :=
  match cacheLookup c k with
  | none => ((none, c), [])
  | some e =>
    if e.expiresAt ≤ now then ((none, cacheErase c k), persistLogs w)
    else ((some e.value, c), [])

/-- A JSON document as produced by `json.loads`: `null`, a boolean, a
number (floats modelled exactly as rationals), a string, an array, or an
object given as its textual field list (possibly with repeated keys, which
`json.loads` resolves last-wins into a `dict`). -/
inductive Json
  | null
  | bool (b : Bool)
  | num (q : ℚ)
  | str (s : String)
  | arr (elems : List Json)
  | obj (fields : List (String × Json))

/-- Content of the durable cache file as seen by
`ResponseCache._load_disk_cache` (lines 52–64): the file may be missing, the
read may raise `OSError`, the parse may raise `JSONDecodeError`, or it
parses to an arbitrary JSON document — the code never checks its shape. -/
inductive DiskRead
  | missing
  | ioError
  | corrupt
  | parsed (j : Json)

/-- The exceptions `_load_disk_cache` can raise on a parseable file of the
wrong shape; neither is caught (line 57 catches only `OSError` and
`json.JSONDecodeError`), so both escape `ResponseCache.__init__`:
`attributeError` from `payload.items()` on a non-dict document or from
`entry.get(...)` on a non-dict entry, `typeError` from comparing a
non-numeric `expires_at` with the float `now`. -/
inductive PyError
  | attributeError
  | typeError
deriving DecidableEq

/-- Python `dict.get(k, d)` on the last-wins view of a JSON object's
textual field list. -/
def jsonGetD (fields : List (String × Json)) (k : String) (d : Json) : Json :=
  fields.foldl (fun r p => if p.1 = k then p.2 else r) d

/-- Python `dict` assignment `d[k] = v`: an existing key keeps its position
and takes the new value, a new key is appended. -/
def dictInsert (d : List (String × Json)) (k : String) (v : Json) :
    List (String × Json) :=
  if d.any (fun p => decide (p.1 = k)) then
    d.map (fun p => if p.1 = k then (k, v) else p)
  else d ++ [(k, v)]

/-- The `dict` built by `json.loads` from an object's textual field list:
first-occurrence order, last-occurrence value. -/
def jsonObjToDict (fields : List (String × Json)) : List (String × Json) :=
  fields.foldl (fun d p => dictInsert d p.1 p.2) []

/-- Values Python's `>` compares with the float `now` without raising:
numbers, and booleans (which compare as `1`/`0`); anything else raises
`TypeError`. -/
def jsonAsFloat (v : Json) : Option ℚ :=
  match v with
  | .num q => some q
  | .bool b => some (if b then 1 else 0)
  | _ => none

/-- Dict assignment `self._cache[key] = CacheEntry(...)` during loading;
the stored value is the raw JSON object under `"value"` (the code never
checks it is a string). -/
def diskUpdate (acc : List (String × ℚ × Json)) (k : String) (q : ℚ) (v : Json) :
    List (String × ℚ × Json) :=
  (k, q, v) :: acc.filter (fun p => decide (p.1 ≠ k))

/-- One iteration of the load loop of `_load_disk_cache` (lines 61–64):
`entry.get("expires_at", 0.0)` raises `AttributeError` on a non-dict entry;
`expires_at > now` raises `TypeError` on a non-numeric, non-boolean
`expires_at`; otherwise the entry is kept only when its expiry is still in
the future, with `entry.get("value", "")` stored as-is. -/
def loadEntry (now : ℚ) (acc : List (String × ℚ × Json)) (kv : String × Json) :
    Except PyError (List (String × ℚ × Json)) :=
  match kv.2 with
  | Json.obj fields =>
    match jsonAsFloat (jsonGetD fields "expires_at" (Json.num 0)) with
    | some q =>
      Except.ok (if now < q then
          diskUpdate acc kv.1 q (jsonGetD fields "value" (Json.str "")) else acc)
    | none => Except.error PyError.typeError
  | _ => Except.error PyError.attributeError

/-- The `for key, entry in payload.items()` loop: the first ill-shaped
entry aborts the constructor with an uncaught exception. -/
def loadLoop (now : ℚ) : List (String × Json) → List (String × ℚ × Json) →
    Except PyError (List (String × ℚ × Json))
  | [], acc => Except.ok acc
  | kv :: rest, acc =>
    match loadEntry now acc kv with
    | Except.error e => Except.error e
    | Except.ok acc2 => loadLoop now rest acc2

/-- `ResponseCache._load_disk_cache`: a missing file returns early, and
`OSError` and `JSONDecodeError` are caught and logged, leaving the cache
empty; a file that parses to a non-object document raises `AttributeError`
at `payload.items()`; an object document is loaded entry by entry, which
may itself raise. -/
def loadDiskCache (r : DiskRead) (now : ℚ) :
    Except PyError (List (String × ℚ × Json)) :=
  match r with
  | .missing => Except.ok []
  | .ioError => Except.ok []
  | .corrupt => Except.ok []
  | .parsed (Json.obj fields) => loadLoop now (jsonObjToDict fields) []
  | .parsed _ => Except.error PyError.attributeError

/-- An entry the load loop processes without raising: a JSON object whose
`expires_at` field (defaulted to `0.0`) is numeric or boolean. -/
def entryOk (kv : String × Json) : Bool :=
  match kv.2 with
  | Json.obj fields =>
    (jsonAsFloat (jsonGetD fields "expires_at" (Json.num 0))).isSome
  | _ => false

/-- A parsed document `_load_disk_cache` survives: an object all of whose
dict entries are well-shaped. -/
def payloadOk (j : Json) : Bool :=
  match j with
  | Json.obj fields => (jsonObjToDict fields).all entryOk
  | _ => false

/-- The expiry the code stores for a well-shaped entry (booleans compare
and store as `1`/`0`). -/
def entryExpiryQ (e : Json) : ℚ :=
  match e with
  | Json.obj fields =>
    (jsonAsFloat (jsonGetD fields "expires_at" (Json.num 0))).getD 0
  | _ => 0

/-- The value the code stores for a well-shaped entry. -/
def entryValueJ (e : Json) : Json :=
  match e with
  | Json.obj fields => jsonGetD fields "value" (Json.str "")
  | _ => Json.str ""

/-! Engine model (`LLMEngine`, lines 154–258). -/

/-- Engine configuration after `__init__` (lines 157–184).  The limits have
already gone through `RateLimiter.__init__` normalization in `cfg.rl`. -/
structure EngineCfg where
  model : String
  maxTokens : ℕ
  temperature : ℚ
  maxPromptChars : ℕ
  maxRetries : ℤ
  cacheTtl : ℤ
  rl : RLCfg
deriving DecidableEq

/-- Python slice `s[i:]` for a possibly negative index. -/
def pySliceFrom (s : List Char) (i : ℤ) : List Char :=
  if 0 ≤ i then s.drop i.toNat else s.drop ((s.length : ℤ) + i).toNat

/-- `LLMEngine._prepare_prompt` (lines 186–192): a prompt within the budget
passes through; a longer one keeps `prompt[:m // 2]` and `prompt[-m // 2:]`
joined by an elision marker (Python `-m // 2` floor-divides the negated
budget). -/
def prepPrompt (maxChars : ℕ) (p : String) : String :=
  if p.length ≤ maxChars then p
  else
    String.mk (p.data.take (maxChars / 2)) ++ "\n...\n" ++
      String.mk (pySliceFrom p.data (Int.fdiv (-(maxChars : ℤ)) 2))

/-- `_estimate_tokens` (lines 33–34): `max(1, len(text) // 4) + max_output_tokens`. -/
def estimateTokens (text : String) (maxOut : ℕ) : ℕ :=
  max 1 (text.length / 4) + maxOut

/-- The cache key of `LLMEngine._cache_key` (lines 194–204): a SHA-256 digest
of the canonical sorted-key JSON encoding of the four request parameters.
The digest is modelled by the parameter tuple itself: the JSON encoding is
injective on the tuple, and the model assumes no SHA-256 collisions. -/
structure CacheKey where
  prompt : String
  model : String
  maxTokens : ℕ
  temperature : ℚ
deriving DecidableEq

/-- The cache key `generate_script` computes for a raw prompt. -/
def promptKey (cfg : EngineCfg) (prompt : String) : CacheKey :=
  ⟨prepPrompt cfg.maxPromptChars prompt, cfg.model, cfg.maxTokens, cfg.temperature⟩

/-- Outcome of one remote `chat.completions.create` call: success with
content, `RateLimitError` (with the optional parsed `Retry-After` header), or
`APIConnectionError` / `APITimeoutError`. -/
inductive RemoteOutcome
  | success (content : String)
  | rateLimited (retryAfter : Option ℚ)
  | connectionFailure
deriving DecidableEq

/-- Engine-visible state threaded through a `generate_script` call: the
response cache, the limiter state, the wall clock, the number of remote calls
issued so far, and the backoff sleeps performed by the retry handler. -/
structure EngineState where
  cache : List (CacheKey × CacheEntry)
  rl : RLState
  now : ℚ
  remoteCalls : ℕ
  backoffs : List ℚ
deriving DecidableEq

/-- Result of `generate_script`: the returned script or one of the four
`RuntimeError` raises, each carrying the state at exit; `outOfFuel` is the
model artifact for loops that would still be waiting. -/
inductive GenResult
  | ok (content : String) (st : EngineState)
  | retryExhausted (st : EngineState)
  | networkFailure (st : EngineState)
  | quotaUnsatisfiable (st : EngineState)
  | dailyExceeded (st : EngineState)
  | outOfFuel
deriving DecidableEq

/-- Python `str.strip()` with no argument: remove whitespace from both ends
(applied to the remote response content on line 231). -/
def pyStrip (s : String) : String :=
  String.mk (((s.data.dropWhile Char.isWhitespace).reverse.dropWhile Char.isWhitespace).reverse)

/-- Backoff sleep computed by the `RateLimitError` handler (lines 240–247):
the provider's `Retry-After` hint when present, otherwise
`0.5 * 2^(attempt-1)` plus a jitter drawn from `[0, base]` (the draw is
modelled by the `jitter` function, indexed by the remote-call count). -/
def backoffWait (jitter : ℕ → ℚ) (attempt : ℕ) (callIdx : ℕ)
    (retryAfter : Option ℚ) : ℚ :=
  match retryAfter with
  | some r => r
  | none => 1 / 2 * 2 ^ (attempt - 1) + jitter callIdx

/-- The retry loop of `generate_script` (lines 221–258): acquire the limiter,
issue the remote call; on success strip, cache and return; on
`RateLimitError` give up after `max_retries` retries, otherwise sleep the
backoff and loop; on a connection/timeout error fail immediately. -/
def genLoop (cfg : EngineCfg) (oracle : ℕ → RemoteOutcome) (jitter : ℕ → ℚ)
    (key : CacheKey) (est : ℕ) : ℕ → ℕ → EngineState → GenResult
  | 0, _, _ => .outOfFuel
  | fuel + 1, attempt, st =>
    match acquire cfg.rl st.rl st.now est 2 with
    | .outOfFuel => .outOfFuel
    | .quotaUnsatisfiable s2 t2 => .quotaUnsatisfiable { st with rl := s2, now := t2 }
    | .dailyExceeded s2 t2 _ => .dailyExceeded { st with rl := s2, now := t2 }
    | .admitted s2 t2 _ =>
      match oracle st.remoteCalls with
      | .success content =>
        .ok (pyStrip content)
          { st with
            rl := s2, now := t2, remoteCalls := st.remoteCalls + 1,
            cache := cacheSet st.cache key (pyStrip content) t2 (cfg.cacheTtl : ℚ) }
      | .connectionFailure =>
        .networkFailure { st with rl := s2, now := t2, remoteCalls := st.remoteCalls + 1 }
      | .rateLimited retryAfter =>
        if cfg.maxRetries < ((attempt + 1 : ℕ) : ℤ) then
          .retryExhausted { st with rl := s2, now := t2, remoteCalls := st.remoteCalls + 1 }
        else
          genLoop cfg oracle jitter key est fuel (attempt + 1)
            { st with
              rl := s2,
              now := t2 + backoffWait jitter (attempt + 1) (st.remoteCalls + 1) retryAfter,
              remoteCalls := st.remoteCalls + 1,
              backoffs :=
                st.backoffs ++ [backoffWait jitter (attempt + 1) (st.remoteCalls + 1) retryAfter] }

/-- `LLMEngine.generate_script` (lines 206–258): prepare the prompt, consult
the cache (a cached value passes the `if cached:` truthiness test only when
non-empty), and on a miss run the retry loop with the estimated token cost.
The loop fuel `max_retries.toNat + 1` covers every possible number of
iterations. -/
def generateScript (cfg : EngineCfg) (oracle : ℕ → RemoteOutcome) (jitter : ℕ → ℚ)
    (st : EngineState) (prompt : String) : GenResult :=
  match cacheGet st.cache (promptKey cfg prompt) st.now with
  | (some v, c2) =>
    if v = "" then
      genLoop cfg oracle jitter (promptKey cfg prompt)
        (estimateTokens (prepPrompt cfg.maxPromptChars prompt) cfg.maxTokens)
        (cfg.maxRetries.toNat + 1) 0 { st with cache := c2 }
    else .ok v { st with cache := c2 }
  | (none, c2) =>
    genLoop cfg oracle jitter (promptKey cfg prompt)
      (estimateTokens (prepPrompt cfg.maxPromptChars prompt) cfg.maxTokens)
      (cfg.maxRetries.toNat + 1) 0 { st with cache := c2 }

/-- Projections of a `GenResult` used to state concrete runs. -/
def genValue : GenResult → Option String
  | .ok v _ => some v
  | _ => none

/-- Remote-call count in the state carried by a `GenResult`. -/
def genCalls : GenResult → ℕ
  | .ok _ st => st.remoteCalls
  | .retryExhausted st => st.remoteCalls
  | .networkFailure st => st.remoteCalls
  | .quotaUnsatisfiable st => st.remoteCalls
  | .dailyExceeded st => st.remoteCalls
  | .outOfFuel => 0

/-- Clock value in the state carried by a `GenResult`. -/
def genNow : GenResult → ℚ
  | .ok _ st => st.now
  | .retryExhausted st => st.now
  | .networkFailure st => st.now
  | .quotaUnsatisfiable st => st.now
  | .dailyExceeded st => st.now
  | .outOfFuel => 0

/-- Concrete engine configuration for the C2 scenario: default limits and a
one-hour TTL. -/
def c2Cfg : EngineCfg := ⟨"gpt-4o-mini", 10, 7 / 10, 2000, 6, 3600, ⟨3, 1000, 0⟩⟩

/-- Remote stub for the C2 scenario: the first call returns an empty body,
any later call returns a different script. -/
def c2Oracle : ℕ → RemoteOutcome
  | 0 => .success ""
  | _ => .success "B"

/-- Jitter draw for the C2 scenario. -/
def c2Jitter : ℕ → ℚ := fun _ => 0

/-- Fresh engine state for the C2 scenario at clock zero. -/
def c2St0 : EngineState := ⟨[], ⟨3, 1000, 0, 0, 0⟩, 0, 0, []⟩

/-- First `generate_script` call of the C2 scenario. -/
def c2First : GenResult := generateScript c2Cfg c2Oracle c2Jitter c2St0 "hi"

/-- Second `generate_script` call of the C2 scenario, issued at clock 100
(well inside the TTL window) on the state the first call returned. -/
def c2Second : GenResult :=
  match c2First with
  | .ok _ st1 => generateScript c2Cfg c2Oracle c2Jitter { st1 with now := 100 } "hi"
  | _ => .outOfFuel

/-- Remote stub answering a fixed script, for witnesses. -/
def okOracle : ℕ → RemoteOutcome := fun _ => .success "W"

/-- Remote stub that always reports throttling with no Retry-After hint. -/
def throttleOracle : ℕ → RemoteOutcome := fun _ => .rateLimited none

/-- The Retry-After view of `throttleOracle`. -/
def throttleRa : ℕ → Option ℚ := fun _ => none

/-- Remote stub that always reports a connectivity failure. -/
def connOracle : ℕ → RemoteOutcome := fun _ => .connectionFailure

/-- Zero jitter draw, for witnesses. -/
def zeroJitter : ℕ → ℚ := fun _ => 0

/-- Number of admissions at instants up to `b` (used to bound windows). -/
def reqUpTo (b : ℚ) (evs : List (ℚ × ℕ)) : ℕ :=
  (evs.filter (fun e => decide (e.1 ≤ b))).length

/-- Admitted token units at instants up to `b` (used to bound windows). -/
def unitsUpTo (b : ℚ) (evs : List (ℚ × ℕ)) : ℕ :=
  ((evs.filter (fun e => decide (e.1 ≤ b))).map Prod.snd).sum

/-! Theorems. -/

theorem mkRLCfg_valid (a b c : ℤ) : (mkRLCfg a b c).Valid :=
  ⟨le_max_left _ _, le_max_left _ _, le_max_left _ _⟩

theorem init_inv {cfg : RLCfg} (hv : cfg.Valid) (now : ℚ) :
    (RLState.init cfg now).Inv cfg := by
  obtain ⟨h1, h2, _⟩ := hv
  have hr : (0 : ℚ) ≤ (cfg.rpm : ℚ) := by exact_mod_cast (by linarith : (0 : ℤ) ≤ cfg.rpm)
  have ht : (0 : ℚ) ≤ (cfg.tpm : ℚ) := by exact_mod_cast (by linarith : (0 : ℤ) ≤ cfg.tpm)
  exact ⟨hr, le_refl _, ht, le_refl _⟩

theorem refill_inv {cfg : RLCfg} {st : RLState} (hv : cfg.Valid) (h : st.Inv cfg)
    (now : ℚ) : (st.refill cfg now).Inv cfg := by
  obtain ⟨hr1, hr2, ht1, ht2⟩ := h
  have hrpm : (0 : ℚ) ≤ (cfg.rpm : ℚ) := by
    exact_mod_cast (by linarith [hv.1] : (0 : ℤ) ≤ cfg.rpm)
  have htpm : (0 : ℚ) ≤ (cfg.tpm : ℚ) := by
    exact_mod_cast (by linarith [hv.2.1] : (0 : ℤ) ≤ cfg.tpm)
  unfold RLState.refill
  split
  · exact ⟨hr1, hr2, ht1, ht2⟩
  · rename_i hel
    have hpos : 0 < now - st.lastRefill := not_le.mp hel
    constructor
    · exact le_min hrpm (by nlinarith)
    constructor
    · exact min_le_left _ _
    constructor
    · exact le_min htpm (by nlinarith)
    · exact min_le_left _ _

theorem checkDailyReset_buckets (st : RLState) (now : ℚ) :
    (st.checkDailyReset now).requestTokens = st.requestTokens ∧
      (st.checkDailyReset now).tokenTokens = st.tokenTokens ∧
      (st.checkDailyReset now).lastRefill = st.lastRefill := by
  unfold RLState.checkDailyReset
  split <;> exact ⟨rfl, rfl, rfl⟩

theorem checkDailyReset_inv {cfg : RLCfg} {st : RLState} (h : st.Inv cfg) (now : ℚ) :
    (st.checkDailyReset now).Inv cfg := by
  unfold RLState.checkDailyReset
  split <;> exact h

theorem attempt_inv {cfg : RLCfg} {st : RLState} (hv : cfg.Valid) (h : st.Inv cfg)
    (now : ℚ) (n : ℕ) : (st.attempt cfg now n).1.Inv cfg := by
  have h1 : (st.checkDailyReset now).Inv cfg := checkDailyReset_inv h now
  have h2 : ((st.checkDailyReset now).refill cfg now).Inv cfg := refill_inv hv h1 now
  unfold RLState.attempt
  split
  · exact h1
  · split
    · rename_i hadm
      obtain ⟨b1, b2, b3, b4⟩ := h2
      have hn : (0 : ℚ) ≤ (n : ℚ) := Nat.cast_nonneg n
      simp only [RLState.Inv, RLState.debit]
      exact ⟨by linarith [hadm.1], by linarith, by linarith [hadm.2], by linarith⟩
    · exact h2

theorem checkDailyReset_same_day {st : RLState} {now : ℚ} (h : dayOf now = st.day) :
    st.checkDailyReset now = st := by
  unfold RLState.checkDailyReset
  rw [if_neg (not_not_intro h)]

theorem checkDailyReset_rollover {st : RLState} {now : ℚ} (h : dayOf now ≠ st.day) :
    st.checkDailyReset now = { st with day := dayOf now, dailyRequests := 0 } := by
  unfold RLState.checkDailyReset
  rw [if_pos h]

/-- C7: the quota-state invariant `0 ≤ request_tokens ≤ rpm_limit` and
`0 ≤ token_tokens ≤ tpm_limit` holds for the initial state built by
`__init__` and is preserved by `_refill` and by every admission-loop
iteration of `acquire` (in particular by every admission debit). -/
theorem claim_C7 (cfg : RLCfg) (hv : cfg.Valid) :
    (∀ t0 : ℚ, (RLState.init cfg t0).Inv cfg) ∧
      (∀ (st : RLState) (now : ℚ), st.Inv cfg → (st.refill cfg now).Inv cfg) ∧
      (∀ (st : RLState) (now : ℚ) (n : ℕ), st.Inv cfg → (st.attempt cfg now n).1.Inv cfg) :=
  ⟨fun t0 => init_inv hv t0, fun _ now h => refill_inv hv h now,
    fun _ now n h => attempt_inv hv h now n⟩

theorem claim_C7_witness :
    ((RLState.init (mkRLCfg 3 1000 0) 0).refill (mkRLCfg 3 1000 0) 5).Inv (mkRLCfg 3 1000 0) :=
  (claim_C7 (mkRLCfg 3 1000 0) (mkRLCfg_valid 3 1000 0)).2.1 _ 5
    ((claim_C7 (mkRLCfg 3 1000 0) (mkRLCfg_valid 3 1000 0)).1 0)

/-- C5: a call to `acquire` with `tokens_needed` strictly exceeding the
tokens-per-minute limit raises the quota-unsatisfiable `RuntimeError`
immediately: the limiter state and the clock at the raise are exactly those
at entry (no wait, no bucket debit, no daily-counter change), for any fuel,
and the concurrency semaphore is never touched. -/
theorem claim_C5 (cfg : RLCfg) (st : RLState) (now : ℚ) (n : ℕ) (fuel : ℕ)
    (sem : ℕ) (body : BodyOutcome) (h : cfg.tpm < (n : ℤ)) :
    acquire cfg st now n fuel = .quotaUnsatisfiable st now ∧
      acquireScope cfg sem st now n fuel body = (.quotaError, sem) := by
  unfold acquire acquireScope
  rw [if_pos h, if_pos h]
  exact ⟨rfl, rfl⟩

theorem claim_C5_witness :
    acquire (mkRLCfg 3 10 0) (RLState.init (mkRLCfg 3 10 0) 0) 0 11 5 =
        .quotaUnsatisfiable (RLState.init (mkRLCfg 3 10 0) 0) 0 ∧
      acquireScope (mkRLCfg 3 10 0) 2 (RLState.init (mkRLCfg 3 10 0) 0) 0 11 5 .ok =
        (.quotaError, 2) :=
  claim_C5 (mkRLCfg 3 10 0) (RLState.init (mkRLCfg 3 10 0) 0) 0 11 5 2 .ok (by decide)

/-- C10: whenever an `acquire` scope completes (normal completion of the
body, an exception raised by the body, the daily-limit raise from inside the
loop, or the quota-unsatisfiable raise from before the semaphore is taken),
the number of available semaphore permits is restored to its pre-call
value; only the model-artifact fuel-exhaustion outcome (the loop still
sleeping) is excluded. -/
theorem claim_C10 (cfg : RLCfg) (st : RLState) (now : ℚ) (n : ℕ) (fuel : ℕ)
    (sem : ℕ) (body : BodyOutcome) (hsem : 1 ≤ sem)
    (hdone : (acquireScope cfg sem st now n fuel body).1 ≠ .fuelExhausted) :
    (acquireScope cfg sem st now n fuel body).2 = sem := by
  have hrestore : sem - 1 + 1 = sem := Nat.sub_add_cancel hsem
  unfold acquireScope at hdone ⊢
  split
  · rfl
  · rcases hloop : acquireLoop cfg fuel st now n [] with st2 | st2 | st2 | _
    · cases body <;> simp [hloop, hrestore]
    · simp [hloop, hrestore]
    · simp [hloop, hrestore]
    · rw [if_neg (by assumption)] at hdone
      simp [hloop] at hdone

theorem claim_C10_witness :
    (acquireScope (mkRLCfg 3 1000 0) 2 (RLState.init (mkRLCfg 3 1000 0) 0) 0 4 1 .raises).2
      = 2 :=
  claim_C10 (mkRLCfg 3 1000 0) (RLState.init (mkRLCfg 3 1000 0) 0) 0 4 1 2 .raises
    (by norm_num)
    (by
      norm_num [acquireScope, acquireLoop, RLState.attempt, RLState.checkDailyReset,
        RLState.refill, RLState.init, mkRLCfg, dayOf]
      decide)

/-- C6: with a positive daily cap, once the daily counter has reached the cap
on the current calendar day, `acquire` raises the daily-limit `RuntimeError`
immediately (no wait, no bucket debit, state unchanged); on a calendar-day
rollover the counter is reset to zero exactly once (a second same-instant
check does not reset again) and admission resumes when the refilled buckets
suffice; a cap of zero disables the daily limit entirely. -/
theorem claim_C6 (cfg : RLCfg) (st : RLState) (now : ℚ) (n : ℕ) :
    ((cfg.rpd ≠ 0 → dayOf now = st.day → cfg.rpd ≤ (st.dailyRequests : ℤ) →
        st.attempt cfg now n = (st, .dailyExceeded) ∧
          ((n : ℤ) ≤ cfg.tpm → ∀ fuel : ℕ,
            acquire cfg st now n (fuel + 1) = .dailyExceeded st now [])) ∧
      (dayOf now ≠ st.day →
        (st.checkDailyReset now).dailyRequests = 0 ∧
          (st.checkDailyReset now).day = dayOf now ∧
          (st.checkDailyReset now).checkDailyReset now = st.checkDailyReset now ∧
          (0 < cfg.rpd →
            1 ≤ ((st.checkDailyReset now).refill cfg now).requestTokens →
            (n : ℚ) ≤ ((st.checkDailyReset now).refill cfg now).tokenTokens →
            st.attempt cfg now n =
              (((st.checkDailyReset now).refill cfg now).debit n, .admitted))) ∧
      (cfg.rpd = 0 → (st.attempt cfg now n).2 ≠ .dailyExceeded)) := by
  refine ⟨?_, ?_, ?_⟩
  · intro h1 h2 h3
    have hcd : st.checkDailyReset now = st := checkDailyReset_same_day h2
    have hatt : st.attempt cfg now n = (st, .dailyExceeded) := by
      unfold RLState.attempt
      rw [hcd, if_pos ⟨h1, h3⟩]
    refine ⟨hatt, fun hle fuel => ?_⟩
    unfold acquire
    rw [if_neg (not_lt.mpr hle)]
    simp [acquireLoop, hatt]
  · intro h2
    have hcd := checkDailyReset_rollover h2
    refine ⟨by rw [hcd], by rw [hcd], ?_, ?_⟩
    · rw [hcd]
      exact checkDailyReset_same_day rfl
    · intro hpos hreq htok
      unfold RLState.attempt
      rw [if_neg, if_pos ⟨hreq, htok⟩]
      rw [hcd]
      intro hcontra
      have : cfg.rpd ≤ 0 := by exact_mod_cast hcontra.2
      omega
  · intro hz
    unfold RLState.attempt
    split
    · rename_i hcond
      exact absurd hz hcond.1
    · split
      · simp
      · simp

theorem claim_C6_witness :
    RLState.attempt ⟨2, 50, 0, 0, 5⟩ ⟨2, 100, 5⟩ 0 30 = (⟨2, 50, 0, 0, 5⟩, .dailyExceeded) ∧
      (RLState.checkDailyReset ⟨2, 50, 0, 0, 5⟩ 86400).dailyRequests = 0 ∧
      (RLState.attempt ⟨2, 50, 0, 0, 5⟩ ⟨2, 100, 0⟩ 0 30).2 ≠ .dailyExceeded :=
  ⟨((claim_C6 ⟨2, 100, 5⟩ ⟨2, 50, 0, 0, 5⟩ 0 30).1 (by decide)
      (by norm_num [dayOf]) (by norm_num)).1,
    ((claim_C6 ⟨2, 100, 5⟩ ⟨2, 50, 0, 0, 5⟩ 86400 30).2.1 (by norm_num [dayOf])).1,
    (claim_C6 ⟨2, 100, 0⟩ ⟨2, 50, 0, 0, 5⟩ 0 30).2.2 rfl⟩

theorem cacheLookup_update {κ : Type} [DecidableEq κ] (c : List (κ × CacheEntry))
    (k : κ) (e : CacheEntry) : cacheLookup (cacheUpdate c k e) k = some e := by
  unfold cacheLookup cacheUpdate
  rw [List.find?_cons_of_pos _ (by simp)]
  rfl

/-- C8: a key stored at time `T` with `ttl = S` reads as absent at any time
`t ≥ T + S` (and the expired entry is evicted from the store by that read),
while a read strictly before `T + S` returns the stored value and leaves the
store unchanged. -/
theorem claim_C8 {κ : Type} [DecidableEq κ] (c : List (κ × CacheEntry)) (k : κ)
    (v : String) (T S t : ℚ) :
    (T + S ≤ t →
        cacheGet (cacheSet c k v T S) k t =
          (none, cacheErase (cacheSet c k v T S) k)) ∧
      (t < T + S → cacheGet (cacheSet c k v T S) k t = (some v, cacheSet c k v T S)) := by
  have hl : cacheLookup (cacheSet c k v T S) k = some ⟨T + S, v⟩ :=
    cacheLookup_update c k ⟨T + S, v⟩
  constructor
  · intro h
    simp [cacheGet, hl, h]
  · intro h
    simp [cacheGet, hl, not_le.mpr h]

theorem claim_C8_witness :
    cacheGet (cacheSet ([] : List (ℕ × CacheEntry)) 0 "w" 0 10) 0 10 =
        (none, cacheErase (cacheSet ([] : List (ℕ × CacheEntry)) 0 "w" 0 10) 0) ∧
      cacheGet (cacheSet ([] : List (ℕ × CacheEntry)) 0 "w" 0 10) 0 3 =
        (some "w", cacheSet ([] : List (ℕ × CacheEntry)) 0 "w" 0 10) :=
  ⟨(claim_C8 ([] : List (ℕ × CacheEntry)) 0 "w" 0 10 10).1 (by norm_num),
    (claim_C8 ([] : List (ℕ × CacheEntry)) 0 "w" 0 10 3).2 (by norm_num)⟩

theorem cacheUpdate_mem {κ : Type} [DecidableEq κ] {c : List (κ × CacheEntry)}
    {k k2 : κ} {e e2 : CacheEntry} (h : (k2, e2) ∈ cacheUpdate c k e) :
    (k2 = k ∧ e2 = e) ∨ (k2, e2) ∈ c := by
  unfold cacheUpdate at h
  rcases List.mem_cons.mp h with h1 | h1
  · left
    exact ⟨congrArg Prod.fst h1, congrArg Prod.snd h1⟩
  · right
    exact List.mem_of_mem_filter h1

theorem loadLoop_cons (now : ℚ) (kv : String × Json) (rest : List (String × Json))
    (acc : List (String × ℚ × Json)) :
    loadLoop now (kv :: rest) acc =
      match loadEntry now acc kv with
      | Except.error e => Except.error e
      | Except.ok acc2 => loadLoop now rest acc2 := rfl

theorem loadEntry_ok_iff (now : ℚ) (acc : List (String × ℚ × Json))
    (kv : String × Json) :
    (∃ a2, loadEntry now acc kv = Except.ok a2) ↔ entryOk kv = true := by
  rcases kv with ⟨k, v⟩
  cases v with
  | obj fields =>
    simp only [loadEntry, entryOk]
    cases hj : jsonAsFloat (jsonGetD fields "expires_at" (Json.num 0)) with
    | none => simp [hj]
    | some q => simp [hj]
  | null => simp [loadEntry, entryOk]
  | bool b => simp [loadEntry, entryOk]
  | num q => simp [loadEntry, entryOk]
  | str s => simp [loadEntry, entryOk]
  | arr elems => simp [loadEntry, entryOk]

theorem diskUpdate_mem {acc : List (String × ℚ × Json)} {k : String} {q : ℚ}
    {v : Json} {p : String × ℚ × Json} (h : p ∈ diskUpdate acc k q v) :
    p = (k, q, v) ∨ p ∈ acc := by
  unfold diskUpdate at h
  rcases List.mem_cons.mp h with h1 | h1
  · exact Or.inl h1
  · exact Or.inr (List.mem_of_mem_filter h1)

theorem loadEntry_ok_mem (now : ℚ) (acc : List (String × ℚ × Json))
    (kv : String × Json) (acc2 : List (String × ℚ × Json))
    (h : loadEntry now acc kv = Except.ok acc2) :
    ∀ p ∈ acc2,
      (p.1 = kv.1 ∧ now < p.2.1 ∧ p.2.1 = entryExpiryQ kv.2 ∧
          p.2.2 = entryValueJ kv.2) ∨
        p ∈ acc := by
  intro p hp
  rcases kv with ⟨k, v⟩
  cases v with
  | obj fields =>
    unfold loadEntry at h
    dsimp only at h
    cases hj : jsonAsFloat (jsonGetD fields "expires_at" (Json.num 0)) with
    | none =>
      rw [hj] at h
      exact Except.noConfusion h
    | some q =>
      rw [hj] at h
      dsimp only at h
      injection h with h2
      by_cases hq : now < q
      · rw [if_pos hq] at h2
        subst h2
        rcases diskUpdate_mem hp with h3 | h3
        · left
          subst h3
          refine ⟨rfl, hq, ?_, rfl⟩
          unfold entryExpiryQ
          dsimp only
          rw [hj]
          rfl
        · exact Or.inr h3
      · rw [if_neg hq] at h2
        subst h2
        exact Or.inr hp
  | null => simp [loadEntry] at h
  | bool b => simp [loadEntry] at h
  | num q => simp [loadEntry] at h
  | str s => simp [loadEntry] at h
  | arr elems => simp [loadEntry] at h

theorem loadLoop_ok_iff (now : ℚ) :
    ∀ (kvs : List (String × Json)) (acc : List (String × ℚ × Json)),
      (∃ es, loadLoop now kvs acc = Except.ok es) ↔ kvs.all entryOk = true := by
  intro kvs
  induction kvs with
  | nil =>
    intro acc
    constructor
    · intro _
      rfl
    · intro _
      exact ⟨acc, rfl⟩
  | cons kv rest ih =>
    intro acc
    rw [loadLoop_cons]
    cases hkv : loadEntry now acc kv with
    | error e =>
      have hek : entryOk kv = false := by
        cases hek2 : entryOk kv
        · rfl
        · rcases (loadEntry_ok_iff now acc kv).mpr hek2 with ⟨a2, ha⟩
          rw [hkv] at ha
          exact Except.noConfusion ha
      simp [hek]
    | ok acc2 =>
      have hek : entryOk kv = true := (loadEntry_ok_iff now acc kv).mp ⟨acc2, hkv⟩
      simp only [List.all_cons, hek, Bool.true_and]
      exact ih acc2

theorem loadLoop_mem (now : ℚ) :
    ∀ (kvs : List (String × Json)) (acc es : List (String × ℚ × Json)),
      loadLoop now kvs acc = Except.ok es →
      ∀ p ∈ es,
        (now < p.2.1 ∧
            ∃ e, (p.1, e) ∈ kvs ∧ p.2.1 = entryExpiryQ e ∧ p.2.2 = entryValueJ e) ∨
          p ∈ acc := by
  intro kvs
  induction kvs with
  | nil =>
    intro acc es h p hp
    injection h with h2
    subst h2
    exact Or.inr hp
  | cons kv rest ih =>
    intro acc es h p hp
    rw [loadLoop_cons] at h
    cases hkv : loadEntry now acc kv with
    | error e =>
      rw [hkv] at h
      exact Except.noConfusion h
    | ok acc2 =>
      rw [hkv] at h
      dsimp only at h
      rcases ih acc2 es h p hp with h1 | h1
      · rcases h1 with ⟨hlt, e, he, hexp, hval⟩
        exact Or.inl ⟨hlt, e, List.mem_cons_of_mem _ he, hexp, hval⟩
      · rcases loadEntry_ok_mem now acc kv acc2 hkv p h1 with ⟨hp1, hlt, hexp, hval⟩ | h2
        · refine Or.inl ⟨hlt, kv.2, ?_, hexp, hval⟩
          rw [hp1]
          exact List.mem_cons_self _ _
        · exact Or.inr h2

/-- C9 (corrected): a missing file, an `OSError` on the read, and a
`JSONDecodeError` on the parse are all caught, leaving the cache empty
without raising; but a file that parses to valid JSON of the wrong shape is
NOT tolerated — loading succeeds exactly when the document is an object all
of whose entries have a numeric-or-boolean (or absent) `expires_at`, and on
success every loaded entry is unexpired and drawn from the file's dict
view.  A failure of the write-through persist is only logged: the dict
produced by `set` and the value and dict produced by `get` are identical
whether the write succeeds or fails. -/
theorem claim_C9 :
    (∀ now : ℚ, loadDiskCache .missing now = Except.ok [] ∧
        loadDiskCache .ioError now = Except.ok [] ∧
        loadDiskCache .corrupt now = Except.ok []) ∧
      (∀ (j : Json) (now : ℚ),
        (∃ es, loadDiskCache (.parsed j) now = Except.ok es) ↔ payloadOk j = true) ∧
      (∀ (j : Json) (now : ℚ) (es : List (String × ℚ × Json)),
        loadDiskCache (.parsed j) now = Except.ok es →
        ∀ p ∈ es, now < p.2.1 ∧
          ∃ fields e, j = Json.obj fields ∧ (p.1, e) ∈ jsonObjToDict fields ∧
            p.2.1 = entryExpiryQ e ∧ p.2.2 = entryValueJ e) ∧
      (∀ (κ : Type) (inst : DecidableEq κ) (c : List (κ × CacheEntry)) (k : κ)
        (v : String) (now ttl : ℚ) (w w2 : PersistOutcome),
          (@cacheSetPersist κ inst c k v now ttl w).1 =
              (@cacheSetPersist κ inst c k v now ttl w2).1 ∧
            (@cacheGetPersist κ inst c k now w).1 = (@cacheGetPersist κ inst c k now w2).1) := by
  refine ⟨fun now => ⟨rfl, rfl, rfl⟩, ?_, ?_, ?_⟩
  · intro j now
    cases j with
    | obj fields => exact loadLoop_ok_iff now (jsonObjToDict fields) []
    | null => simp [loadDiskCache, payloadOk]
    | bool b => simp [loadDiskCache, payloadOk]
    | num q => simp [loadDiskCache, payloadOk]
    | str s => simp [loadDiskCache, payloadOk]
    | arr elems => simp [loadDiskCache, payloadOk]
  · intro j now es h p hp
    cases j with
    | obj fields =>
      rcases loadLoop_mem now (jsonObjToDict fields) [] es h p hp with h1 | h1
      · rcases h1 with ⟨hlt, e, he, hexp, hval⟩
        exact ⟨hlt, fields, e, rfl, he, hexp, hval⟩
      · simp at h1
    | null => exact Except.noConfusion h
    | bool b => exact Except.noConfusion h
    | num q => exact Except.noConfusion h
    | str s => exact Except.noConfusion h
    | arr elems => exact Except.noConfusion h
  · intro κ inst c k v now ttl w w2
    refine ⟨rfl, ?_⟩
    unfold cacheGetPersist
    rcases cacheLookup c k with _ | e
    · rfl
    · by_cases he : e.expiresAt ≤ now <;> simp [he]

/-- C9 counterexample: the claim says loading tolerates EVERY cache-file
content without raising, but `_load_disk_cache` catches only `OSError` and
`JSONDecodeError` (line 57).  A file holding the valid JSON `[1, 2, 3]`
raises an uncaught `AttributeError` at `payload.items()`; `{"k": 1}`
raises an uncaught `AttributeError` at `entry.get("expires_at", 0.0)`; and
`{"k": {"expires_at": "x"}}` raises an uncaught `TypeError` at
`expires_at > now`.  Each escapes `ResponseCache.__init__` to the caller. -/
theorem claim_C9_counterexample :
    loadDiskCache (.parsed (Json.arr [Json.num 1, Json.num 2, Json.num 3])) 0 =
        Except.error PyError.attributeError ∧
      loadDiskCache (.parsed (Json.obj [("k", Json.num 1)])) 0 =
        Except.error PyError.attributeError ∧
      loadDiskCache (.parsed (Json.obj [("k", Json.obj [("expires_at", Json.str "x")])])) 0 =
        Except.error PyError.typeError := by
  refine ⟨rfl, ?_, ?_⟩
  · simp [loadDiskCache, jsonObjToDict, dictInsert, loadLoop_cons, loadEntry]
  · simp [loadDiskCache, jsonObjToDict, dictInsert, loadLoop_cons, loadEntry,
      jsonGetD, jsonAsFloat]

theorem refill_lastRefill_eq {cfg : RLCfg} {st : RLState} {now : ℚ}
    (hlr : st.lastRefill ≤ now) : (st.refill cfg now).lastRefill = now := by
  unfold RLState.refill
  split
  · rename_i h
    have : st.lastRefill = now := le_antisymm hlr (by linarith)
    exact this
  · rfl

theorem refill_values {cfg : RLCfg} {st : RLState} {now : ℚ}
    (h : 0 < now - st.lastRefill) :
    (st.refill cfg now).requestTokens =
        min (cfg.rpm : ℚ) (st.requestTokens + (cfg.rpm : ℚ) / 60 * (now - st.lastRefill)) ∧
      (st.refill cfg now).tokenTokens =
        min (cfg.tpm : ℚ) (st.tokenTokens + (cfg.tpm : ℚ) / 60 * (now - st.lastRefill)) := by
  unfold RLState.refill
  rw [if_neg (not_le.mpr h)]
  exact ⟨rfl, rfl⟩

theorem attempt_ne_daily {cfg : RLCfg} {st : RLState} {now : ℚ} {n : ℕ}
    (hrpd : cfg.rpd = 0) : (st.attempt cfg now n).2 ≠ .dailyExceeded := by
  unfold RLState.attempt
  split
  · rename_i hcond
    exact absurd hrpd hcond.1.elim
  · split <;> simp

theorem attempt_admitted_lastRefill {cfg : RLCfg} {st : RLState} {now : ℚ} {n : ℕ}
    (hlr : st.lastRefill ≤ now) (h : (st.attempt cfg now n).2 = .admitted) :
    (st.attempt cfg now n).1.lastRefill = now := by
  have hclr : (st.checkDailyReset now).lastRefill ≤ now := by
    rw [(checkDailyReset_buckets st now).2.2]
    exact hlr
  unfold RLState.attempt at h ⊢
  by_cases hc1 : cfg.rpd ≠ 0 ∧ cfg.rpd ≤ ((st.checkDailyReset now).dailyRequests : ℤ)
  · rw [if_pos hc1] at h
    simp at h
  · rw [if_neg hc1] at h ⊢
    by_cases hc2 : 1 ≤ ((st.checkDailyReset now).refill cfg now).requestTokens ∧
        (n : ℚ) ≤ ((st.checkDailyReset now).refill cfg now).tokenTokens
    · rw [if_pos hc2]
      show ((st.checkDailyReset now).refill cfg now).lastRefill = now
      exact refill_lastRefill_eq hclr
    · rw [if_neg hc2] at h
      simp at h

theorem attempt_wouldWait_eq {cfg : RLCfg} {st st1 : RLState} {now w : ℚ} {n : ℕ}
    (h : st.attempt cfg now n = (st1, .wouldWait w)) :
    st1 = (st.checkDailyReset now).refill cfg now ∧
      w = waitFor cfg ((st.checkDailyReset now).refill cfg now) n ∧
      ¬(1 ≤ st1.requestTokens ∧ (n : ℚ) ≤ st1.tokenTokens) := by
  unfold RLState.attempt at h
  split at h
  · simp at h
  · split at h
    · simp at h
    · rename_i h1 h2
      obtain ⟨hst, hw⟩ := Prod.mk.injEq .. ▸ h
      have hw2 : w = waitFor cfg ((st.checkDailyReset now).refill cfg now) n := by
        have := congrArg (fun r => match r with
          | AttemptResult.wouldWait x => x
          | _ => 0) hw
        simpa using this.symm
      exact ⟨hst.symm, hw2, hst ▸ h2⟩

theorem waitFor_quarter (cfg : RLCfg) (st : RLState) (n : ℕ) :
    1 / 4 ≤ waitFor cfg st n :=
  le_max_right _ _

theorem waitFor_covers_requests {cfg : RLCfg} (st : RLState) (n : ℕ) (hv : cfg.Valid) :
    1 ≤ st.requestTokens + (cfg.rpm : ℚ) / 60 * waitFor cfg st n := by
  have hr : (0 : ℚ) < (cfg.rpm : ℚ) := by exact_mod_cast lt_of_lt_of_le zero_lt_one hv.1
  have hw14 : (1 : ℚ) / 4 ≤ waitFor cfg st n := waitFor_quarter cfg st n
  by_cases hdr : max 0 (1 - st.requestTokens) = 0
  · have h1 : 1 - st.requestTokens ≤ 0 := by
      by_contra hc
      have := max_eq_right (le_of_lt (not_le.mp hc))
      rw [this] at hdr
      linarith [not_le.mp hc]
    nlinarith
  · have hwr : max 0 (1 - st.requestTokens) / (cfg.rpm : ℚ) * 60 ≤ waitFor cfg st n := by
      unfold waitFor
      refine le_trans (le_trans ?_ (le_max_left _ _)) (le_max_left _ _)
      rw [if_pos hdr]
    have key : (cfg.rpm : ℚ) / 60 * (max 0 (1 - st.requestTokens) / (cfg.rpm : ℚ) * 60) =
        max 0 (1 - st.requestTokens) := by
      field_simp
      ring
    have hmul := mul_le_mul_of_nonneg_left hwr (by positivity : (0 : ℚ) ≤ (cfg.rpm : ℚ) / 60)
    rw [key] at hmul
    have hmax : 1 - st.requestTokens ≤ max 0 (1 - st.requestTokens) := le_max_right _ _
    linarith

theorem waitFor_covers_tokens {cfg : RLCfg} (st : RLState) (n : ℕ) (hv : cfg.Valid)
    (hn : (n : ℤ) ≤ cfg.tpm) :
    (n : ℚ) ≤ st.tokenTokens + (cfg.tpm : ℚ) / 60 * waitFor cfg st n := by
  have ht : (0 : ℚ) < (cfg.tpm : ℚ) := by exact_mod_cast lt_of_lt_of_le zero_lt_one hv.2.1
  have hw14 : (1 : ℚ) / 4 ≤ waitFor cfg st n := waitFor_quarter cfg st n
  by_cases hdt : max 0 ((n : ℚ) - st.tokenTokens) = 0
  · have h1 : (n : ℚ) - st.tokenTokens ≤ 0 := by
      by_contra hc
      have := max_eq_right (le_of_lt (not_le.mp hc))
      rw [this] at hdt
      linarith [not_le.mp hc]
    nlinarith
  · have hwt : max 0 ((n : ℚ) - st.tokenTokens) / (cfg.tpm : ℚ) * 60 ≤ waitFor cfg st n := by
      unfold waitFor
      refine le_trans (le_trans ?_ (le_max_right _ _)) (le_max_left _ _)
      rw [if_pos hdt]
    have key : (cfg.tpm : ℚ) / 60 * (max 0 ((n : ℚ) - st.tokenTokens) / (cfg.tpm : ℚ) * 60) =
        max 0 ((n : ℚ) - st.tokenTokens) := by
      field_simp
      ring
    have hmul := mul_le_mul_of_nonneg_left hwt (by positivity : (0 : ℚ) ≤ (cfg.tpm : ℚ) / 60)
    rw [key] at hmul
    have hmax : (n : ℚ) - st.tokenTokens ≤ max 0 ((n : ℚ) - st.tokenTokens) := le_max_right _ _
    linarith

theorem attempt_admits_after_refill {cfg : RLCfg} {st1 : RLState} {now2 : ℚ} {n : ℕ}
    (hv : cfg.Valid) (hrpd : cfg.rpd = 0) (hlr : st1.lastRefill < now2)
    (hreq : 1 ≤ st1.requestTokens + (cfg.rpm : ℚ) / 60 * (now2 - st1.lastRefill))
    (htok : (n : ℚ) ≤ st1.tokenTokens + (cfg.tpm : ℚ) / 60 * (now2 - st1.lastRefill))
    (hn : (n : ℤ) ≤ cfg.tpm) :
    (st1.attempt cfg now2 n).2 = .admitted := by
  have hrpm1 : (1 : ℚ) ≤ (cfg.rpm : ℚ) := by exact_mod_cast hv.1
  have htpmn : (n : ℚ) ≤ (cfg.tpm : ℚ) := by exact_mod_cast hn
  obtain ⟨hcr, hct, hcl⟩ := checkDailyReset_buckets st1 now2
  have helapsed : 0 < now2 - (st1.checkDailyReset now2).lastRefill := by
    rw [hcl]; linarith
  obtain ⟨hvr, hvt⟩ := @refill_values cfg (st1.checkDailyReset now2) now2 helapsed
  have c1 : 1 ≤ ((st1.checkDailyReset now2).refill cfg now2).requestTokens := by
    rw [hvr, hcr, hcl]
    exact le_min hrpm1 hreq
  have c2 : (n : ℚ) ≤ ((st1.checkDailyReset now2).refill cfg now2).tokenTokens := by
    rw [hvt, hct, hcl]
    exact le_min htpmn htok
  unfold RLState.attempt
  rw [if_neg (by simp [hrpd]), if_pos ⟨c1, c2⟩]

theorem acquireLoop_step (cfg : RLCfg) (fuel : ℕ) (st : RLState) (now : ℚ) (n : ℕ)
    (waits : List ℚ) :
    acquireLoop cfg (fuel + 1) st now n waits =
      match (st.attempt cfg now n).2 with
      | .admitted => .admitted (st.attempt cfg now n).1 now waits
      | .dailyExceeded => .dailyExceeded (st.attempt cfg now n).1 now waits
      | .wouldWait w =>
        acquireLoop cfg fuel (st.attempt cfg now n).1 (now + w) n (waits ++ [w]) := rfl

theorem acquire_two_admits {cfg : RLCfg} {st : RLState} {now : ℚ} {n : ℕ}
    (hv : cfg.Valid) (hinv : st.Inv cfg) (hlr : st.lastRefill ≤ now)
    (hn : (n : ℤ) ≤ cfg.tpm) (hrpd : cfg.rpd = 0) :
    ∃ (stF : RLState) (nowF : ℚ) (waits : List ℚ),
      acquire cfg st now n 2 = .admitted stF nowF waits ∧
        stF.Inv cfg ∧ stF.lastRefill = nowF ∧ now ≤ nowF := by
  have hguard : ¬cfg.tpm < (n : ℤ) := not_lt.mpr hn
  unfold acquire
  rw [if_neg hguard]
  rcases hatt : st.attempt cfg now n with ⟨st1, r⟩
  rcases r with _ | _ | w
  · refine ⟨st1, now, [], ?_, ?_, ?_, le_refl now⟩
    · show acquireLoop cfg (1 + 1) st now n [] = .admitted st1 now []
      rw [acquireLoop_step, hatt]
    · have h2 := attempt_inv hv hinv now n
      rw [hatt] at h2
      exact h2
    · have h2 : (st.attempt cfg now n).2 = .admitted := by rw [hatt]
      have h3 := attempt_admitted_lastRefill hlr h2
      rw [hatt] at h3
      exact h3
  · have h2 := @attempt_ne_daily cfg st now n hrpd
    rw [hatt] at h2
    simp at h2
  · obtain ⟨hst1, hw, hfail⟩ := attempt_wouldWait_eq hatt
    have hlr1 : st1.lastRefill = now := by
      rw [hst1]
      exact refill_lastRefill_eq (by rw [(checkDailyReset_buckets st now).2.2]; exact hlr)
    have hinv1 : st1.Inv cfg := by
      have h2 := attempt_inv hv hinv now n
      rw [hatt] at h2
      exact h2
    have hwq : 1 / 4 ≤ w := by
      rw [hw]
      exact waitFor_quarter cfg _ n
    have hsum : now + w - now = w := by ring
    have hreq : 1 ≤ st1.requestTokens + (cfg.rpm : ℚ) / 60 * (now + w - st1.lastRefill) := by
      rw [hlr1, hsum, hw, hst1]
      exact waitFor_covers_requests _ n hv
    have htok : (n : ℚ) ≤ st1.tokenTokens + (cfg.tpm : ℚ) / 60 * (now + w - st1.lastRefill) := by
      rw [hlr1, hsum, hw, hst1]
      exact waitFor_covers_tokens _ n hv hn
    have hadm : (st1.attempt cfg (now + w) n).2 = .admitted :=
      attempt_admits_after_refill hv hrpd (by rw [hlr1]; linarith) hreq htok hn
    rcases hatt2 : st1.attempt cfg (now + w) n with ⟨st2, r2⟩
    have hr2 : r2 = .admitted := by
      rw [hatt2] at hadm
      exact hadm
    subst hr2
    refine ⟨st2, now + w, [w], ?_, ?_, ?_, by linarith⟩
    · show acquireLoop cfg (1 + 1) st now n [] = .admitted st2 (now + w) [w]
      rw [acquireLoop_step, hatt]
      show acquireLoop cfg (0 + 1) st1 (now + w) n ([] ++ [w]) = .admitted st2 (now + w) [w]
      rw [acquireLoop_step, hatt2]
      rfl
    · have h2 := attempt_inv hv hinv1 (now + w) n
      rw [hatt2] at h2
      exact h2
    · have h2 : (st1.attempt cfg (now + w) n).2 = .admitted := by rw [hatt2]
      have h3 := attempt_admitted_lastRefill (by rw [hlr1]; linarith) h2
      rw [hatt2] at h3
      exact h3

theorem genLoop_step (cfg : EngineCfg) (oracle : ℕ → RemoteOutcome) (jitter : ℕ → ℚ)
    (key : CacheKey) (est : ℕ) (fuel attempt : ℕ) (st : EngineState) :
    genLoop cfg oracle jitter key est (fuel + 1) attempt st =
      match acquire cfg.rl st.rl st.now est 2 with
      | .outOfFuel => .outOfFuel
      | .quotaUnsatisfiable s2 t2 => .quotaUnsatisfiable { st with rl := s2, now := t2 }
      | .dailyExceeded s2 t2 _ => .dailyExceeded { st with rl := s2, now := t2 }
      | .admitted s2 t2 _ =>
        match oracle st.remoteCalls with
        | .success content =>
          .ok (pyStrip content)
            { st with
              rl := s2, now := t2, remoteCalls := st.remoteCalls + 1,
              cache := cacheSet st.cache key (pyStrip content) t2 (cfg.cacheTtl : ℚ) }
        | .connectionFailure =>
          .networkFailure { st with rl := s2, now := t2, remoteCalls := st.remoteCalls + 1 }
        | .rateLimited retryAfter =>
          if cfg.maxRetries < ((attempt + 1 : ℕ) : ℤ) then
            .retryExhausted { st with rl := s2, now := t2, remoteCalls := st.remoteCalls + 1 }
          else
            genLoop cfg oracle jitter key est fuel (attempt + 1)
              { st with
                rl := s2,
                now := t2 + backoffWait jitter (attempt + 1) (st.remoteCalls + 1) retryAfter,
                remoteCalls := st.remoteCalls + 1,
                backoffs :=
                  st.backoffs ++
                    [backoffWait jitter (attempt + 1) (st.remoteCalls + 1) retryAfter] } := rfl

theorem backoffWait_nonneg (jitter : ℕ → ℚ) (attempt callIdx : ℕ) (ra : Option ℚ)
    (hra : ∀ r, ra = some r → 0 ≤ r) (hj : 0 ≤ jitter callIdx) :
    0 ≤ backoffWait jitter attempt callIdx ra := by
  unfold backoffWait
  cases ra with
  | some r => exact hra r rfl
  | none =>
    have h2 : (0 : ℚ) < 2 ^ (attempt - 1) := pow_pos (by norm_num) _
    linarith

/-- C4: on a cache miss, if the remote call raises a connectivity or timeout
error, `generate_script` fails terminally with the network-failure
`RuntimeError` after exactly one remote call: the retry counter is never
touched, no backoff sleep is recorded, and the clock only advanced inside
the limiter. -/
theorem claim_C4 (cfg : EngineCfg) (oracle : ℕ → RemoteOutcome) (jitter : ℕ → ℚ)
    (st : EngineState) (prompt : String)
    (hv : cfg.rl.Valid) (hrpd : cfg.rl.rpd = 0)
    (hinv : st.rl.Inv cfg.rl) (hlr : st.rl.lastRefill ≤ st.now)
    (hest : ((estimateTokens (prepPrompt cfg.maxPromptChars prompt) cfg.maxTokens : ℕ) : ℤ) ≤
      cfg.rl.tpm)
    (hmiss : (cacheGet st.cache (promptKey cfg prompt) st.now).1 = none)
    (horacle : oracle st.remoteCalls = .connectionFailure) :
    ∃ stF : EngineState,
      generateScript cfg oracle jitter st prompt = .networkFailure stF ∧
        stF.remoteCalls = st.remoteCalls + 1 ∧ stF.backoffs = st.backoffs ∧
        st.now ≤ stF.now := by
  rcases hget : cacheGet st.cache (promptKey cfg prompt) st.now with ⟨o, c2⟩
  rw [hget] at hmiss
  dsimp only at hmiss
  subst hmiss
  obtain ⟨s2, t2, ws, hacq, hinv2, hlr2, hle2⟩ :=
    @acquire_two_admits cfg.rl st.rl st.now
      (estimateTokens (prepPrompt cfg.maxPromptChars prompt) cfg.maxTokens)
      hv hinv hlr hest hrpd
  refine ⟨{ st with cache := c2, rl := s2, now := t2, remoteCalls := st.remoteCalls + 1 },
    ?_, rfl, rfl, hle2⟩
  unfold generateScript
  rw [hget]
  dsimp only
  rw [genLoop_step]
  dsimp only
  rw [hacq, horacle]

theorem genLoop_throttle_exhausts (cfg : EngineCfg) (oracle : ℕ → RemoteOutcome)
    (jitter : ℕ → ℚ) (key : CacheKey) (est : ℕ) (ra : ℕ → Option ℚ)
    (hv : cfg.rl.Valid) (hrpd : cfg.rl.rpd = 0) (hest : (est : ℤ) ≤ cfg.rl.tpm)
    (horacle : ∀ i, oracle i = .rateLimited (ra i))
    (hra : ∀ i r, ra i = some r → 0 ≤ r) (hj : ∀ i, 0 ≤ jitter i) :
    ∀ (k attempt : ℕ) (st : EngineState), st.rl.Inv cfg.rl → st.rl.lastRefill ≤ st.now →
      (attempt : ℤ) + (k : ℤ) = cfg.maxRetries →
      ∃ stF : EngineState,
        genLoop cfg oracle jitter key est (k + 1) attempt st = .retryExhausted stF ∧
          stF.remoteCalls = st.remoteCalls + (k + 1) := by
  intro k
  induction k with
  | zero =>
    intro attempt st hinv hlr hk
    obtain ⟨s2, t2, ws, hacq, hinv2, hlr2, hle2⟩ :=
      @acquire_two_admits cfg.rl st.rl st.now est hv hinv hlr hest hrpd
    refine ⟨{ st with rl := s2, now := t2, remoteCalls := st.remoteCalls + 1 }, ?_, rfl⟩
    rw [genLoop_step, hacq]
    dsimp only
    rw [horacle st.remoteCalls]
    dsimp only
    rw [if_pos (by push_cast; omega)]
  | succ k ih =>
    intro attempt st hinv hlr hk
    obtain ⟨s2, t2, ws, hacq, hinv2, hlr2, hle2⟩ :=
      @acquire_two_admits cfg.rl st.rl st.now est hv hinv hlr hest hrpd
    have hw0 : 0 ≤ backoffWait jitter (attempt + 1) (st.remoteCalls + 1) (ra st.remoteCalls) :=
      backoffWait_nonneg _ _ _ _ (hra st.remoteCalls) (hj _)
    have hinv3 : ({ st with
        rl := s2,
        now := t2 + backoffWait jitter (attempt + 1) (st.remoteCalls + 1) (ra st.remoteCalls),
        remoteCalls := st.remoteCalls + 1,
        backoffs := st.backoffs ++
          [backoffWait jitter (attempt + 1) (st.remoteCalls + 1) (ra st.remoteCalls)] } :
          EngineState).rl.Inv cfg.rl := hinv2
    have hlr3 : ({ st with
        rl := s2,
        now := t2 + backoffWait jitter (attempt + 1) (st.remoteCalls + 1) (ra st.remoteCalls),
        remoteCalls := st.remoteCalls + 1,
        backoffs := st.backoffs ++
          [backoffWait jitter (attempt + 1) (st.remoteCalls + 1) (ra st.remoteCalls)] } :
          EngineState).rl.lastRefill ≤ ({ st with
        rl := s2,
        now := t2 + backoffWait jitter (attempt + 1) (st.remoteCalls + 1) (ra st.remoteCalls),
        remoteCalls := st.remoteCalls + 1,
        backoffs := st.backoffs ++
          [backoffWait jitter (attempt + 1) (st.remoteCalls + 1) (ra st.remoteCalls)] } :
          EngineState).now := by
      dsimp only
      rw [hlr2]
      linarith
    obtain ⟨stF, heq, hcalls⟩ := ih (attempt + 1) _ hinv3 hlr3 (by push_cast at hk ⊢; omega)
    refine ⟨stF, ?_, ?_⟩
    · rw [genLoop_step, hacq]
      dsimp only
      rw [horacle st.remoteCalls]
      dsimp only
      rw [if_neg (by push_cast at hk ⊢; omega)]
      exact heq
    · rw [hcalls]
      dsimp only
      omega

/-- C3: on a cache miss, if every remote call raises the throttling
`RateLimitError` and `max_retries = R ≥ 0` is configured, `generate_script`
performs exactly `R + 1` remote calls and then fails with the
retry-exhaustion `RuntimeError`; the exact remote-call count in the final
state shows no further attempt happens after the raise.  (Retry-After hints
and jitter draws are arbitrary non-negative values.) -/
theorem claim_C3 (cfg : EngineCfg) (oracle : ℕ → RemoteOutcome) (jitter : ℕ → ℚ)
    (st : EngineState) (prompt : String) (ra : ℕ → Option ℚ)
    (hv : cfg.rl.Valid) (hrpd : cfg.rl.rpd = 0)
    (hinv : st.rl.Inv cfg.rl) (hlr : st.rl.lastRefill ≤ st.now)
    (hest : ((estimateTokens (prepPrompt cfg.maxPromptChars prompt) cfg.maxTokens : ℕ) : ℤ) ≤
      cfg.rl.tpm)
    (hmiss : (cacheGet st.cache (promptKey cfg prompt) st.now).1 = none)
    (horacle : ∀ i, oracle i = .rateLimited (ra i))
    (hra : ∀ i r, ra i = some r → 0 ≤ r) (hj : ∀ i, 0 ≤ jitter i)
    (hR : 0 ≤ cfg.maxRetries) :
    ∃ stF : EngineState,
      generateScript cfg oracle jitter st prompt = .retryExhausted stF ∧
        stF.remoteCalls = st.remoteCalls + (cfg.maxRetries.toNat + 1) := by
  rcases hget : cacheGet st.cache (promptKey cfg prompt) st.now with ⟨o, c2⟩
  rw [hget] at hmiss
  dsimp only at hmiss
  subst hmiss
  obtain ⟨stF, heq, hcalls⟩ :=
    genLoop_throttle_exhausts cfg oracle jitter (promptKey cfg prompt)
      (estimateTokens (prepPrompt cfg.maxPromptChars prompt) cfg.maxTokens) ra
      hv hrpd hest horacle hra hj cfg.maxRetries.toNat 0
      ({ st with cache := c2 }) hinv hlr (by push_cast; omega)
  refine ⟨stF, ?_, ?_⟩
  · unfold generateScript
    rw [hget]
    dsimp only
    exact heq
  · rw [hcalls]

theorem cacheGet_unexpired {κ : Type} [DecidableEq κ] (c : List (κ × CacheEntry)) (k : κ)
    (v : String) (tset ttl t2 : ℚ) (h : t2 < tset + ttl) :
    cacheGet (cacheSet c k v tset ttl) k t2 = (some v, cacheSet c k v tset ttl) := by
  have hl : cacheLookup (cacheSet c k v tset ttl) k = some ⟨tset + ttl, v⟩ :=
    cacheLookup_update c k ⟨tset + ttl, v⟩
  simp [cacheGet, hl, not_le.mpr h]

theorem acquire_first_admit {cfg : RLCfg} {st st1 : RLState} {now : ℚ} {n : ℕ}
    (hn : ¬cfg.tpm < (n : ℤ)) (h : st.attempt cfg now n = (st1, .admitted)) :
    acquire cfg st now n 2 = .admitted st1 now [] := by
  unfold acquire
  rw [if_neg hn]
  show acquireLoop cfg (1 + 1) st now n [] = .admitted st1 now []
  rw [acquireLoop_step, h]

theorem generateScript_remote_success (cfg : EngineCfg) (oracle : ℕ → RemoteOutcome)
    (jitter : ℕ → ℚ) (st : EngineState) (prompt s : String) (o : Option String)
    (c2 : List (CacheKey × CacheEntry)) (s2 : RLState) (t2 : ℚ) (ws : List ℚ)
    (hget : cacheGet st.cache (promptKey cfg prompt) st.now = (o, c2))
    (ho : o = none ∨ o = some "")
    (hacq : acquire cfg.rl st.rl st.now
      (estimateTokens (prepPrompt cfg.maxPromptChars prompt) cfg.maxTokens) 2 =
        .admitted s2 t2 ws)
    (horacle : oracle st.remoteCalls = .success s) :
    generateScript cfg oracle jitter st prompt =
      .ok (pyStrip s)
        { st with
          cache := cacheSet c2 (promptKey cfg prompt) (pyStrip s) t2 (cfg.cacheTtl : ℚ),
          rl := s2, now := t2, remoteCalls := st.remoteCalls + 1 } := by
  rcases ho with ho | ho <;> subst ho
  · unfold generateScript
    rw [hget]
    dsimp only
    rw [genLoop_step]
    dsimp only
    rw [hacq]
    dsimp only
    rw [horacle]
  · unfold generateScript
    rw [hget]
    dsimp only
    rw [if_pos rfl]
    rw [genLoop_step]
    dsimp only
    rw [hacq]
    dsimp only
    rw [horacle]

/-- C2 (amended): on a cache miss, a successful remote call whose stripped
content is non-empty is cached, and any second `generate_script` call for the
same prompt and parameters issued strictly before the entry's expiry
(store time + TTL) returns the identical value with no further remote call —
under any remote behavior whatsoever on the second call — so at most one
remote call is issued across the two invocations.  The non-emptiness proviso
is forced by the `if cached:` truthiness test (see the counterexample). -/
theorem claim_C2 (cfg : EngineCfg) (oracle : ℕ → RemoteOutcome) (jitter : ℕ → ℚ)
    (st : EngineState) (prompt s : String)
    (hv : cfg.rl.Valid) (hrpd : cfg.rl.rpd = 0)
    (hinv : st.rl.Inv cfg.rl) (hlr : st.rl.lastRefill ≤ st.now)
    (hest : ((estimateTokens (prepPrompt cfg.maxPromptChars prompt) cfg.maxTokens : ℕ) : ℤ) ≤
      cfg.rl.tpm)
    (hmiss : (cacheGet st.cache (promptKey cfg prompt) st.now).1 = none)
    (horacle : oracle st.remoteCalls = .success s)
    (hs : pyStrip s ≠ "") :
    ∃ stF : EngineState,
      generateScript cfg oracle jitter st prompt = .ok (pyStrip s) stF ∧
        stF.remoteCalls = st.remoteCalls + 1 ∧
        ∀ (oracle2 : ℕ → RemoteOutcome) (jitter2 : ℕ → ℚ) (t2 : ℚ),
          t2 < stF.now + (cfg.cacheTtl : ℚ) →
          generateScript cfg oracle2 jitter2 { stF with now := t2 } prompt =
            .ok (pyStrip s) { stF with now := t2 } := by
  rcases hget : cacheGet st.cache (promptKey cfg prompt) st.now with ⟨o, c2⟩
  rw [hget] at hmiss
  dsimp only at hmiss
  subst hmiss
  obtain ⟨s2, t2, ws, hacq, hinv2, hlr2, hle2⟩ :=
    @acquire_two_admits cfg.rl st.rl st.now
      (estimateTokens (prepPrompt cfg.maxPromptChars prompt) cfg.maxTokens)
      hv hinv hlr hest hrpd
  have h1 := generateScript_remote_success cfg oracle jitter st prompt s none c2 s2 t2 ws
    hget (Or.inl rfl) hacq horacle
  refine ⟨_, h1, rfl, ?_⟩
  intro oracle2 jitter2 t2' ht
  have hget2 : cacheGet (cacheSet c2 (promptKey cfg prompt) (pyStrip s) t2 (cfg.cacheTtl : ℚ))
      (promptKey cfg prompt) t2' =
      (some (pyStrip s),
        cacheSet c2 (promptKey cfg prompt) (pyStrip s) t2 (cfg.cacheTtl : ℚ)) :=
    cacheGet_unexpired _ _ _ _ _ _ ht
  unfold generateScript
  dsimp only
  rw [hget2]
  dsimp only
  rw [if_neg hs]

theorem claim_C2_counterexample :
    genValue c2First = some "" ∧ genCalls c2First = 1 ∧
      genValue c2Second = some "B" ∧ genCalls c2Second = 2 ∧
      (100 : ℚ) < genNow c2First + (c2Cfg.cacheTtl : ℚ) := by
  have hatt1 : RLState.attempt ⟨3, 1000, 0, 0, 0⟩ ⟨3, 1000, 0⟩ 0 11 =
      (⟨2, 989, 0, 0, 1⟩, .admitted) := by
    norm_num [RLState.attempt, RLState.checkDailyReset, RLState.refill, RLState.debit, dayOf]
  have hacq1 : acquire (⟨3, 1000, 0⟩ : RLCfg) (⟨3, 1000, 0, 0, 0⟩ : RLState) 0 11 2 =
      .admitted ⟨2, 989, 0, 0, 1⟩ 0 [] :=
    acquire_first_admit (by norm_num) hatt1
  have hget1 : cacheGet c2St0.cache (promptKey c2Cfg "hi") c2St0.now = (none, []) := by
    simp [c2St0, cacheGet, cacheLookup]
  have h1 := generateScript_remote_success c2Cfg c2Oracle c2Jitter c2St0 "hi" "" none []
    ⟨2, 989, 0, 0, 1⟩ 0 [] hget1 (Or.inl rfl) hacq1 rfl
  have hstrip : pyStrip "" = "" := rfl
  have hc2First : c2First =
      .ok "" { c2St0 with
        cache := cacheSet [] (promptKey c2Cfg "hi") "" 0 (c2Cfg.cacheTtl : ℚ),
        rl := ⟨2, 989, 0, 0, 1⟩, now := 0, remoteCalls := c2St0.remoteCalls + 1 } := by
    unfold c2First
    rw [h1, hstrip]
  have hsecond_eq : c2Second =
      generateScript c2Cfg c2Oracle c2Jitter
        ⟨cacheSet [] (promptKey c2Cfg "hi") "" 0 (c2Cfg.cacheTtl : ℚ),
          ⟨2, 989, 0, 0, 1⟩, 100, 1, []⟩ "hi" := by
    unfold c2Second
    rw [hc2First]
    rfl
  have hatt2 : RLState.attempt ⟨2, 989, 0, 0, 1⟩ ⟨3, 1000, 0⟩ 100 11 =
      (⟨2, 989, 100, 0, 2⟩, .admitted) := by
    norm_num [RLState.attempt, RLState.checkDailyReset, RLState.refill, RLState.debit, dayOf]
  have hacq2 : acquire (⟨3, 1000, 0⟩ : RLCfg) (⟨2, 989, 0, 0, 1⟩ : RLState) 100 11 2 =
      .admitted ⟨2, 989, 100, 0, 2⟩ 100 [] :=
    acquire_first_admit (by norm_num) hatt2
  have hget2 : cacheGet (cacheSet [] (promptKey c2Cfg "hi") "" 0 (c2Cfg.cacheTtl : ℚ))
      (promptKey c2Cfg "hi") 100 =
      (some "", cacheSet [] (promptKey c2Cfg "hi") "" 0 (c2Cfg.cacheTtl : ℚ)) :=
    cacheGet_unexpired _ _ _ _ _ _ (by norm_num [c2Cfg])
  have h2 := generateScript_remote_success c2Cfg c2Oracle c2Jitter
    ⟨cacheSet [] (promptKey c2Cfg "hi") "" 0 (c2Cfg.cacheTtl : ℚ),
      ⟨2, 989, 0, 0, 1⟩, 100, 1, []⟩ "hi" "B" (some "")
    (cacheSet [] (promptKey c2Cfg "hi") "" 0 (c2Cfg.cacheTtl : ℚ))
    ⟨2, 989, 100, 0, 2⟩ 100 [] hget2 (Or.inr rfl) hacq2 rfl
  refine ⟨?_, ?_, ?_, ?_, ?_⟩
  · rw [hc2First]
    rfl
  · rw [hc2First]
    rfl
  · rw [hsecond_eq, h2]
    rfl
  · rw [hsecond_eq, h2]
    rfl
  · rw [hc2First]
    norm_num [genNow, c2Cfg]

theorem claim_C2_witness :
    ∃ stF : EngineState,
      generateScript c2Cfg okOracle zeroJitter ⟨[], ⟨3, 1000, 0, 0, 0⟩, 0, 0, []⟩ "hi" =
          .ok (pyStrip "W") stF ∧
        stF.remoteCalls = (⟨[], ⟨3, 1000, 0, 0, 0⟩, 0, 0, []⟩ : EngineState).remoteCalls + 1 ∧
        ∀ (oracle2 : ℕ → RemoteOutcome) (jitter2 : ℕ → ℚ) (t2 : ℚ),
          t2 < stF.now + (c2Cfg.cacheTtl : ℚ) →
          generateScript c2Cfg oracle2 jitter2 { stF with now := t2 } "hi" =
            .ok (pyStrip "W") { stF with now := t2 } :=
  claim_C2 c2Cfg okOracle zeroJitter ⟨[], ⟨3, 1000, 0, 0, 0⟩, 0, 0, []⟩ "hi" "W"
    (by decide) rfl (by norm_num [RLState.Inv, c2Cfg]) (by norm_num) (by decide)
    (by simp [cacheGet, cacheLookup]) rfl (by decide)

theorem claim_C3_witness :
    ∃ stF : EngineState,
      generateScript ⟨"m", 10, 7 / 10, 2000, 2, 3600, ⟨3, 1000, 0⟩⟩ throttleOracle zeroJitter
          ⟨[], ⟨3, 1000, 0, 0, 0⟩, 0, 0, []⟩ "hi" = .retryExhausted stF ∧
        stF.remoteCalls = 0 + 3 :=
  claim_C3 ⟨"m", 10, 7 / 10, 2000, 2, 3600, ⟨3, 1000, 0⟩⟩ throttleOracle zeroJitter
    ⟨[], ⟨3, 1000, 0, 0, 0⟩, 0, 0, []⟩ "hi" throttleRa
    (by decide) rfl (by norm_num [RLState.Inv]) (by norm_num) (by decide)
    (by simp [cacheGet, cacheLookup])
    (fun _ => rfl) (fun i r h => by simp [throttleRa] at h) (fun _ => le_refl 0) (by decide)

theorem claim_C4_witness :
    ∃ stF : EngineState,
      generateScript ⟨"m", 10, 7 / 10, 2000, 6, 3600, ⟨3, 1000, 0⟩⟩ connOracle zeroJitter
          ⟨[], ⟨3, 1000, 0, 0, 0⟩, 0, 0, []⟩ "hi" = .networkFailure stF ∧
        stF.remoteCalls = 0 + 1 ∧ stF.backoffs = ([] : List ℚ) ∧ (0 : ℚ) ≤ stF.now :=
  claim_C4 ⟨"m", 10, 7 / 10, 2000, 6, 3600, ⟨3, 1000, 0⟩⟩ connOracle zeroJitter
    ⟨[], ⟨3, 1000, 0, 0, 0⟩, 0, 0, []⟩ "hi"
    (by decide) rfl (by norm_num [RLState.Inv]) (by norm_num) (by decide)
    (by simp [cacheGet, cacheLookup]) rfl

theorem runAttempts_cons (cfg : RLCfg) (st : RLState) (t : ℚ) (n : ℕ)
    (rest : List (ℚ × ℕ)) :
    runAttempts cfg st ((t, n) :: rest) =
      ((runAttempts cfg (st.attempt cfg t n).1 rest).1,
        if (st.attempt cfg t n).2 = .admitted then
          (t, n) :: (runAttempts cfg (st.attempt cfg t n).1 rest).2
        else (runAttempts cfg (st.attempt cfg t n).1 rest).2) := by
  show (match (st.attempt cfg t n).2 with
    | .admitted =>
      ((runAttempts cfg (st.attempt cfg t n).1 rest).1,
        (t, n) :: (runAttempts cfg (st.attempt cfg t n).1 rest).2)
    | _ =>
      ((runAttempts cfg (st.attempt cfg t n).1 rest).1,
        (runAttempts cfg (st.attempt cfg t n).1 rest).2)) = _
  rcases (st.attempt cfg t n).2 with _ | _ | w
  · rw [if_pos rfl]
  · rw [if_neg (by simp)]
  · rw [if_neg (by simp)]

theorem runAttempts_append (cfg : RLCfg) :
    ∀ (l1 l2 : List (ℚ × ℕ)) (st : RLState),
      runAttempts cfg st (l1 ++ l2) =
        ((runAttempts cfg (runAttempts cfg st l1).1 l2).1,
          (runAttempts cfg st l1).2 ++ (runAttempts cfg (runAttempts cfg st l1).1 l2).2) := by
  intro l1
  induction l1 with
  | nil => intro l2 st; rfl
  | cons e rest ih =>
    intro l2 st
    rcases e with ⟨t, n⟩
    rw [List.cons_append, runAttempts_cons, runAttempts_cons, ih]
    split <;> rfl

theorem runAttempts_inv (cfg : RLCfg) (hv : cfg.Valid) :
    ∀ (l : List (ℚ × ℕ)) (st : RLState), st.Inv cfg → (runAttempts cfg st l).1.Inv cfg := by
  intro l
  induction l with
  | nil => intro st h; exact h
  | cons e rest ih =>
    intro st h
    rcases e with ⟨t, n⟩
    rw [runAttempts_cons]
    exact ih _ (attempt_inv hv h t n)

theorem attempt_lastRefill_cases (cfg : RLCfg) (st : RLState) (now : ℚ) (n : ℕ) :
    (st.attempt cfg now n).1.lastRefill = st.lastRefill ∨
      (st.attempt cfg now n).1.lastRefill = now := by
  have hclr : (st.checkDailyReset now).lastRefill = st.lastRefill :=
    (checkDailyReset_buckets st now).2.2
  unfold RLState.attempt
  split
  · exact Or.inl hclr
  · have hrl : ((st.checkDailyReset now).refill cfg now).lastRefill = st.lastRefill ∨
        ((st.checkDailyReset now).refill cfg now).lastRefill = now := by
      unfold RLState.refill
      split
      · exact Or.inl hclr
      · exact Or.inr rfl
    split
    · exact hrl
    · exact hrl

theorem runAttempts_lastRefill_le (cfg : RLCfg) (b : ℚ) :
    ∀ (l : List (ℚ × ℕ)) (st : RLState), st.lastRefill ≤ b → (∀ e ∈ l, e.1 ≤ b) →
      (runAttempts cfg st l).1.lastRefill ≤ b := by
  intro l
  induction l with
  | nil => intro st h _; exact h
  | cons e rest ih =>
    intro st h hall
    rcases e with ⟨t, n⟩
    rw [runAttempts_cons]
    refine ih _ ?_ (fun e he => hall e (List.mem_cons_of_mem _ he))
    rcases attempt_lastRefill_cases cfg st t n with h1 | h1
    · rw [h1]; exact h
    · rw [h1]; exact hall (t, n) (List.mem_cons_self _ _)

theorem runAttempts_events_sublist (cfg : RLCfg) :
    ∀ (l : List (ℚ × ℕ)) (st : RLState), (runAttempts cfg st l).2.Sublist l := by
  intro l
  induction l with
  | nil => intro st; exact List.Sublist.refl []
  | cons e rest ih =>
    intro st
    rcases e with ⟨t, n⟩
    rw [runAttempts_cons]
    dsimp only
    split
    · exact List.Sublist.cons₂ _ (ih _)
    · exact List.Sublist.cons _ (ih _)

theorem attempt_step_bound {cfg : RLCfg} {st : RLState} {now : ℚ} {n : ℕ}
    (hv : cfg.Valid) (hinv : st.Inv cfg) (ht : st.lastRefill ≤ now) {b : ℚ} (hb : now ≤ b) :
    ((st.attempt cfg now n).1.requestTokens +
        (if (st.attempt cfg now n).2 = .admitted then (1 : ℚ) else 0) +
        (cfg.rpm : ℚ) / 60 * max 0 (b - (st.attempt cfg now n).1.lastRefill) ≤
      st.requestTokens + (cfg.rpm : ℚ) / 60 * max 0 (b - st.lastRefill)) ∧
      ((st.attempt cfg now n).1.tokenTokens +
          (if (st.attempt cfg now n).2 = .admitted then (n : ℚ) else 0) +
          (cfg.tpm : ℚ) / 60 * max 0 (b - (st.attempt cfg now n).1.lastRefill) ≤
        st.tokenTokens + (cfg.tpm : ℚ) / 60 * max 0 (b - st.lastRefill)) := by
  have hr0 : (0 : ℚ) ≤ (cfg.rpm : ℚ) / 60 := by
    have : (0 : ℚ) ≤ (cfg.rpm : ℚ) := by exact_mod_cast (by linarith [hv.1] : (0 : ℤ) ≤ cfg.rpm)
    positivity
  have ht0 : (0 : ℚ) ≤ (cfg.tpm : ℚ) / 60 := by
    have : (0 : ℚ) ≤ (cfg.tpm : ℚ) := by
      exact_mod_cast (by linarith [hv.2.1] : (0 : ℤ) ≤ cfg.tpm)
    positivity
  obtain ⟨e1, e2, e3⟩ := checkDailyReset_buckets st now
  unfold RLState.attempt
  by_cases hc1 : cfg.rpd ≠ 0 ∧ cfg.rpd ≤ (((st.checkDailyReset now).dailyRequests : ℕ) : ℤ)
  · rw [if_pos hc1]
    dsimp only
    rw [if_neg (by simp)]
    rw [e1, e2, e3]
    constructor <;> simp
  · rw [if_neg hc1]
    by_cases hre : now - (st.checkDailyReset now).lastRefill ≤ 0
    · have hst2 : (st.checkDailyReset now).refill cfg now = st.checkDailyReset now := by
        unfold RLState.refill
        rw [if_pos hre]
      rw [hst2]
      by_cases hc2 : 1 ≤ (st.checkDailyReset now).requestTokens ∧
          (n : ℚ) ≤ (st.checkDailyReset now).tokenTokens
      · rw [if_pos hc2]
        dsimp only
        rw [if_pos rfl]
        simp only [RLState.debit]
        rw [e1, e2, e3]
        constructor <;> simp
      · rw [if_neg hc2]
        dsimp only
        rw [if_neg (by simp)]
        rw [e1, e2, e3]
        constructor <;> simp
    · have hpos : 0 < now - (st.checkDailyReset now).lastRefill := not_le.mp hre
      obtain ⟨hvr, hvt⟩ := @refill_values cfg (st.checkDailyReset now) now hpos
      have hvl : ((st.checkDailyReset now).refill cfg now).lastRefill = now :=
        refill_lastRefill_eq (by rw [e3]; exact ht)
      have hrb : ((st.checkDailyReset now).refill cfg now).requestTokens ≤
          st.requestTokens + (cfg.rpm : ℚ) / 60 * (now - st.lastRefill) := by
        rw [hvr, e1, e3]
        exact min_le_right _ _
      have htb : ((st.checkDailyReset now).refill cfg now).tokenTokens ≤
          st.tokenTokens + (cfg.tpm : ℚ) / 60 * (now - st.lastRefill) := by
        rw [hvt, e2, e3]
        exact min_le_right _ _
      have hmax1 : max 0 (b - now) = b - now := max_eq_right (by linarith)
      have hmax2 : max 0 (b - st.lastRefill) = b - st.lastRefill :=
        max_eq_right (by linarith)
      by_cases hc2 : 1 ≤ ((st.checkDailyReset now).refill cfg now).requestTokens ∧
          (n : ℚ) ≤ ((st.checkDailyReset now).refill cfg now).tokenTokens
      · rw [if_pos hc2]
        dsimp only
        simp only [RLState.debit]
        rw [hvl, hmax1, hmax2]
        constructor
        · simp only [if_true]
          nlinarith [hrb]
        · simp only [if_true]
          nlinarith [htb]
      · rw [if_neg hc2]
        dsimp only
        rw [hvl, hmax1, hmax2]
        constructor
        · rw [if_neg (by simp)]
          nlinarith [hrb]
        · rw [if_neg (by simp)]
          nlinarith [htb]

theorem runAttempts_upTo_bound (cfg : RLCfg) (hv : cfg.Valid) (b : ℚ) :
    ∀ (l : List (ℚ × ℕ)) (st : RLState), st.Inv cfg →
      (∀ e ∈ l, st.lastRefill ≤ e.1) → l.Pairwise (fun a c => a.1 ≤ c.1) →
      ((reqUpTo b (runAttempts cfg st l).2 : ℚ) ≤
          st.requestTokens + (cfg.rpm : ℚ) / 60 * max 0 (b - st.lastRefill)) ∧
        ((unitsUpTo b (runAttempts cfg st l).2 : ℚ) ≤
          st.tokenTokens + (cfg.tpm : ℚ) / 60 * max 0 (b - st.lastRefill)) := by
  have hr0 : (0 : ℚ) ≤ (cfg.rpm : ℚ) / 60 := by
    have : (0 : ℚ) ≤ (cfg.rpm : ℚ) := by exact_mod_cast (by linarith [hv.1] : (0 : ℤ) ≤ cfg.rpm)
    positivity
  have ht0 : (0 : ℚ) ≤ (cfg.tpm : ℚ) / 60 := by
    have : (0 : ℚ) ≤ (cfg.tpm : ℚ) := by
      exact_mod_cast (by linarith [hv.2.1] : (0 : ℤ) ≤ cfg.tpm)
    positivity
  intro l
  induction l with
  | nil =>
    intro st hinv _ _
    have hm : (0 : ℚ) ≤ max 0 (b - st.lastRefill) := le_max_left _ _
    constructor
    · simp only [runAttempts, reqUpTo, List.filter_nil, List.length_nil, Nat.cast_zero]
      nlinarith [hinv.1]
    · simp only [runAttempts, unitsUpTo, List.filter_nil, List.map_nil, List.sum_nil,
        Nat.cast_zero]
      nlinarith [hinv.2.2.1]
  | cons e rest ih =>
    intro st hinv hall hpw
    rcases e with ⟨t, n⟩
    have ht : st.lastRefill ≤ t := hall (t, n) (List.mem_cons_self _ _)
    have hrest_lb : ∀ e ∈ rest, t ≤ e.1 := by
      intro e he
      exact (List.pairwise_cons.mp hpw).1 e he
    have hpw2 := (List.pairwise_cons.mp hpw).2
    have hm : (0 : ℚ) ≤ max 0 (b - st.lastRefill) := le_max_left _ _
    by_cases hb2 : t ≤ b
    · have hinv1 := attempt_inv hv hinv t n
      have hlb1 : ∀ e ∈ rest, (st.attempt cfg t n).1.lastRefill ≤ e.1 := by
        intro e he
        rcases attempt_lastRefill_cases cfg st t n with h1 | h1
        · rw [h1]; exact le_trans ht (hrest_lb e he)
        · rw [h1]; exact hrest_lb e he
      obtain ⟨ihr, ihu⟩ := ih (st.attempt cfg t n).1 hinv1 hlb1 hpw2
      obtain ⟨sb1, sb2⟩ := @attempt_step_bound cfg st t n hv hinv ht b hb2
      rw [runAttempts_cons]
      dsimp only
      by_cases hadm : (st.attempt cfg t n).2 = .admitted
      · rw [if_pos hadm]
        rw [if_pos hadm] at sb1 sb2
        constructor
        · have hcount : reqUpTo b ((t, n) :: (runAttempts cfg (st.attempt cfg t n).1 rest).2) =
              reqUpTo b (runAttempts cfg (st.attempt cfg t n).1 rest).2 + 1 := by
            simp [reqUpTo, List.filter_cons, hb2]
          rw [hcount]
          push_cast
          linarith [ihr, sb1]
        · have hcount : unitsUpTo b ((t, n) :: (runAttempts cfg (st.attempt cfg t n).1 rest).2) =
              n + unitsUpTo b (runAttempts cfg (st.attempt cfg t n).1 rest).2 := by
            simp [unitsUpTo, List.filter_cons, hb2]
          rw [hcount]
          push_cast
          linarith [ihu, sb2]
      · rw [if_neg hadm]
        rw [if_neg hadm] at sb1 sb2
        exact ⟨by linarith [ihr, sb1], by linarith [ihu, sb2]⟩
    · have hzero : ∀ e ∈ (runAttempts cfg st ((t, n) :: rest)).2,
          ¬((fun e : ℚ × ℕ => decide (e.1 ≤ b)) e = true) := by
        intro e he
        have hmem : e ∈ (t, n) :: rest :=
          (runAttempts_events_sublist cfg ((t, n) :: rest) st).subset he
        simp only [decide_eq_true_eq]
        rcases List.mem_cons.mp hmem with h1 | h1
        · rw [h1]
          exact hb2
        · have := hrest_lb e h1
          intro hc
          exact hb2 (by linarith)
      have hfil : (runAttempts cfg st ((t, n) :: rest)).2.filter
          (fun e : ℚ × ℕ => decide (e.1 ≤ b)) = [] :=
        List.filter_eq_nil_iff.mpr hzero
      constructor
      · simp only [reqUpTo, hfil, List.length_nil, Nat.cast_zero]
        nlinarith [hinv.1]
      · simp only [unitsUpTo, hfil, List.map_nil, List.sum_nil, Nat.cast_zero]
        nlinarith [hinv.2.2.1]

theorem attempt_classify {cfg : RLCfg} {st : RLState} {now : ℚ} {n : ℕ}
    (hlr : st.lastRefill ≤ now) :
    ((st.attempt cfg now n).2 = .dailyExceeded ∧
        (st.attempt cfg now n).1.requestTokens = st.requestTokens ∧
        (st.attempt cfg now n).1.tokenTokens = st.tokenTokens ∧
        (st.attempt cfg now n).1.lastRefill = st.lastRefill) ∨
      (now = st.lastRefill ∧
        (st.attempt cfg now n).1.requestTokens +
            (if (st.attempt cfg now n).2 = .admitted then (1 : ℚ) else 0) =
          st.requestTokens ∧
        (st.attempt cfg now n).1.tokenTokens +
            (if (st.attempt cfg now n).2 = .admitted then (n : ℚ) else 0) =
          st.tokenTokens ∧
        (st.attempt cfg now n).1.lastRefill = st.lastRefill) ∨
      ((st.attempt cfg now n).1.requestTokens +
            (if (st.attempt cfg now n).2 = .admitted then (1 : ℚ) else 0) =
          min (cfg.rpm : ℚ) (st.requestTokens + (cfg.rpm : ℚ) / 60 * (now - st.lastRefill)) ∧
        (st.attempt cfg now n).1.tokenTokens +
            (if (st.attempt cfg now n).2 = .admitted then (n : ℚ) else 0) =
          min (cfg.tpm : ℚ) (st.tokenTokens + (cfg.tpm : ℚ) / 60 * (now - st.lastRefill)) ∧
        (st.attempt cfg now n).1.lastRefill = now) := by
  obtain ⟨e1, e2, e3⟩ := checkDailyReset_buckets st now
  unfold RLState.attempt
  by_cases hc1 : cfg.rpd ≠ 0 ∧ cfg.rpd ≤ (((st.checkDailyReset now).dailyRequests : ℕ) : ℤ)
  · rw [if_pos hc1]
    exact Or.inl ⟨rfl, e1, e2, e3⟩
  · rw [if_neg hc1]
    by_cases hre : now - (st.checkDailyReset now).lastRefill ≤ 0
    · have hnow : now = st.lastRefill := by
        rw [e3] at hre
        linarith
      have hst2 : (st.checkDailyReset now).refill cfg now = st.checkDailyReset now := by
        unfold RLState.refill
        rw [if_pos hre]
      rw [hst2]
      refine Or.inr (Or.inl ⟨hnow, ?_, ?_, ?_⟩)
      · by_cases hc2 : 1 ≤ (st.checkDailyReset now).requestTokens ∧
            (n : ℚ) ≤ (st.checkDailyReset now).tokenTokens
        · rw [if_pos hc2]
          dsimp only
          simp only [RLState.debit, if_true]
          rw [e1]
          ring
        · rw [if_neg hc2]
          dsimp only
          rw [if_neg (by simp)]
          rw [e1]
          ring
      · by_cases hc2 : 1 ≤ (st.checkDailyReset now).requestTokens ∧
            (n : ℚ) ≤ (st.checkDailyReset now).tokenTokens
        · rw [if_pos hc2]
          dsimp only
          simp only [RLState.debit, if_true]
          rw [e2]
          ring
        · rw [if_neg hc2]
          dsimp only
          rw [if_neg (by simp)]
          rw [e2]
          ring
      · by_cases hc2 : 1 ≤ (st.checkDailyReset now).requestTokens ∧
            (n : ℚ) ≤ (st.checkDailyReset now).tokenTokens
        · rw [if_pos hc2]
          dsimp only
          simp only [RLState.debit]
          exact e3
        · rw [if_neg hc2]
          exact e3
    · have hpos : 0 < now - (st.checkDailyReset now).lastRefill := not_le.mp hre
      obtain ⟨hvr, hvt⟩ := @refill_values cfg (st.checkDailyReset now) now hpos
      have hvl : ((st.checkDailyReset now).refill cfg now).lastRefill = now :=
        refill_lastRefill_eq (by rw [e3]; exact hlr)
      rw [e1, e3] at hvr
      rw [e2, e3] at hvt
      refine Or.inr (Or.inr ⟨?_, ?_, ?_⟩)
      · by_cases hc2 : 1 ≤ ((st.checkDailyReset now).refill cfg now).requestTokens ∧
            (n : ℚ) ≤ ((st.checkDailyReset now).refill cfg now).tokenTokens
        · rw [if_pos hc2]
          dsimp only
          simp only [RLState.debit, if_true]
          rw [← hvr]
          ring
        · rw [if_neg hc2]
          dsimp only
          rw [if_neg (by simp)]
          rw [← hvr]
          ring
      · by_cases hc2 : 1 ≤ ((st.checkDailyReset now).refill cfg now).requestTokens ∧
            (n : ℚ) ≤ ((st.checkDailyReset now).refill cfg now).tokenTokens
        · rw [if_pos hc2]
          dsimp only
          simp only [RLState.debit, if_true]
          rw [← hvt]
          ring
        · rw [if_neg hc2]
          dsimp only
          rw [if_neg (by simp)]
          rw [← hvt]
          ring
      · by_cases hc2 : 1 ≤ ((st.checkDailyReset now).refill cfg now).requestTokens ∧
            (n : ℚ) ≤ ((st.checkDailyReset now).refill cfg now).tokenTokens
        · rw [if_pos hc2]
          dsimp only
          simp only [RLState.debit]
          exact hvl
        · rw [if_neg hc2]
          exact hvl

theorem min_add_le (c x z : ℚ) (hz : 0 ≤ z) : min c (x + z) ≤ min c x + z := by
  rcases le_total c x with h | h
  · rw [min_eq_left h]
    exact le_trans (min_le_left _ _) (by linarith)
  · rw [min_eq_right h]
    exact min_le_right _ _

theorem runAttempts_upTo_capped (cfg : RLCfg) (hv : cfg.Valid) (b : ℚ) :
    ∀ (l : List (ℚ × ℕ)) (st : RLState) (a : ℚ), st.Inv cfg → st.lastRefill ≤ a →
      (∀ e ∈ l, a ≤ e.1) → l.Pairwise (fun x y => x.1 ≤ y.1) →
      ((reqUpTo b (runAttempts cfg st l).2 : ℚ) ≤
          min (cfg.rpm : ℚ) (st.requestTokens + (cfg.rpm : ℚ) / 60 * (a - st.lastRefill)) +
            (cfg.rpm : ℚ) / 60 * max 0 (b - a)) ∧
        ((unitsUpTo b (runAttempts cfg st l).2 : ℚ) ≤
          min (cfg.tpm : ℚ) (st.tokenTokens + (cfg.tpm : ℚ) / 60 * (a - st.lastRefill)) +
            (cfg.tpm : ℚ) / 60 * max 0 (b - a)) := by
  have hrpm0 : (0 : ℚ) ≤ (cfg.rpm : ℚ) := by
    exact_mod_cast (by linarith [hv.1] : (0 : ℤ) ≤ cfg.rpm)
  have htpm0 : (0 : ℚ) ≤ (cfg.tpm : ℚ) := by
    exact_mod_cast (by linarith [hv.2.1] : (0 : ℤ) ≤ cfg.tpm)
  have hr0 : (0 : ℚ) ≤ (cfg.rpm : ℚ) / 60 := by positivity
  have ht0 : (0 : ℚ) ≤ (cfg.tpm : ℚ) / 60 := by positivity
  intro l
  induction l with
  | nil =>
    intro st a hinv hla _ _
    have hm : (0 : ℚ) ≤ max 0 (b - a) := le_max_left _ _
    have hd0 : (0 : ℚ) ≤ a - st.lastRefill := by linarith
    have hn1 : (0 : ℚ) ≤ min (cfg.rpm : ℚ)
        (st.requestTokens + (cfg.rpm : ℚ) / 60 * (a - st.lastRefill)) :=
      le_min hrpm0 (by linarith [hinv.1, mul_nonneg hr0 hd0])
    have hn2 : (0 : ℚ) ≤ min (cfg.tpm : ℚ)
        (st.tokenTokens + (cfg.tpm : ℚ) / 60 * (a - st.lastRefill)) :=
      le_min htpm0 (by linarith [hinv.2.2.1, mul_nonneg ht0 hd0])
    constructor
    · simp only [runAttempts, reqUpTo, List.filter_nil, List.length_nil, Nat.cast_zero]
      linarith [mul_nonneg hr0 hm]
    · simp only [runAttempts, unitsUpTo, List.filter_nil, List.map_nil, List.sum_nil,
        Nat.cast_zero]
      linarith [mul_nonneg ht0 hm]
  | cons e rest ih =>
    intro st a hinv hla hall hpw
    rcases e with ⟨t, n⟩
    have ht : a ≤ t := hall (t, n) (List.mem_cons_self _ _)
    have hlt : st.lastRefill ≤ t := le_trans hla ht
    have hrest_lb : ∀ e ∈ rest, t ≤ e.1 := (List.pairwise_cons.mp hpw).1
    have hrest_a : ∀ e ∈ rest, a ≤ e.1 := fun e he => le_trans ht (hrest_lb e he)
    have hpw2 := (List.pairwise_cons.mp hpw).2
    have hinv1 := attempt_inv hv hinv t n
    by_cases hb2 : t ≤ b
    · have hmax : max 0 (b - a) = b - a := max_eq_right (by linarith)
      have hmaxt : max 0 (b - t) = b - t := max_eq_right (by linarith)
      rw [runAttempts_cons]
      dsimp only
      rcases @attempt_classify cfg st t n hlt with
        ⟨hd, f1, f2, f3⟩ | ⟨hnw, f1, f2, f3⟩ | ⟨f1, f2, f3⟩
      · rw [if_neg (by rw [hd]; simp)]
        obtain ⟨ihr, ihu⟩ := ih (st.attempt cfg t n).1 a hinv1 (by rw [f3]; exact hla)
          hrest_a hpw2
        rw [f1, f3] at ihr
        rw [f2, f3] at ihu
        exact ⟨ihr, ihu⟩
      · have haeq : a = st.lastRefill := le_antisymm (by rw [← hnw]; exact ht) hla
        obtain ⟨ihr, ihu⟩ := ih (st.attempt cfg t n).1 a hinv1 (by rw [f3]; exact hla)
          hrest_a hpw2
        have hz1 : a - (st.attempt cfg t n).1.lastRefill = 0 := by
          rw [f3, haeq]
          ring
        have hz0 : a - st.lastRefill = 0 := by rw [haeq]; ring
        simp only [hz1, mul_zero, add_zero] at ihr ihu
        simp only [hz0, mul_zero, add_zero]
        by_cases hadm : (st.attempt cfg t n).2 = .admitted
        · rw [if_pos hadm]
          rw [if_pos hadm] at f1 f2
          have hc1 : (st.attempt cfg t n).1.requestTokens ≤ (cfg.rpm : ℚ) := by
            nlinarith [hinv.2.1]
          have hc2 : (st.attempt cfg t n).1.tokenTokens ≤ (cfg.tpm : ℚ) := by
            have hn0 : (0 : ℚ) ≤ (n : ℚ) := Nat.cast_nonneg n
            nlinarith [hinv.2.2.2]
          rw [min_eq_right hc1] at ihr
          rw [min_eq_right hc2] at ihu
          rw [min_eq_right hinv.2.1, min_eq_right hinv.2.2.2]
          constructor
          · have hcount : reqUpTo b ((t, n) :: (runAttempts cfg (st.attempt cfg t n).1 rest).2) =
                reqUpTo b (runAttempts cfg (st.attempt cfg t n).1 rest).2 + 1 := by
              simp [reqUpTo, List.filter_cons, hb2]
            rw [hcount]
            push_cast
            linarith
          · have hcount : unitsUpTo b ((t, n) :: (runAttempts cfg (st.attempt cfg t n).1 rest).2) =
                n + unitsUpTo b (runAttempts cfg (st.attempt cfg t n).1 rest).2 := by
              simp [unitsUpTo, List.filter_cons, hb2]
            rw [hcount]
            push_cast
            linarith
        · rw [if_neg hadm]
          rw [if_neg hadm] at f1 f2
          have hc1 : (st.attempt cfg t n).1.requestTokens ≤ (cfg.rpm : ℚ) := by
            nlinarith [hinv.2.1]
          have hc2 : (st.attempt cfg t n).1.tokenTokens ≤ (cfg.tpm : ℚ) := by
            nlinarith [hinv.2.2.2]
          rw [min_eq_right hc1] at ihr
          rw [min_eq_right hc2] at ihu
          rw [min_eq_right hinv.2.1, min_eq_right hinv.2.2.2]
          exact ⟨by linarith, by linarith⟩
      · obtain ⟨ihr, ihu⟩ := ih (st.attempt cfg t n).1 t hinv1 (le_of_eq f3) hrest_lb hpw2
        have hz1 : t - (st.attempt cfg t n).1.lastRefill = 0 := by
          rw [f3]
          ring
        simp only [hz1, mul_zero, add_zero, hmaxt] at ihr ihu
        have hsplit1 : st.requestTokens + (cfg.rpm : ℚ) / 60 * (t - st.lastRefill) =
            (st.requestTokens + (cfg.rpm : ℚ) / 60 * (a - st.lastRefill)) +
              (cfg.rpm : ℚ) / 60 * (t - a) := by ring
        have hsplit2 : st.tokenTokens + (cfg.tpm : ℚ) / 60 * (t - st.lastRefill) =
            (st.tokenTokens + (cfg.tpm : ℚ) / 60 * (a - st.lastRefill)) +
              (cfg.tpm : ℚ) / 60 * (t - a) := by ring
        have hms1 : min (cfg.rpm : ℚ) (st.requestTokens + (cfg.rpm : ℚ) / 60 * (t - st.lastRefill)) ≤
            min (cfg.rpm : ℚ) (st.requestTokens + (cfg.rpm : ℚ) / 60 * (a - st.lastRefill)) +
              (cfg.rpm : ℚ) / 60 * (t - a) := by
          rw [hsplit1]
          exact min_add_le _ _ _ (mul_nonneg hr0 (by linarith))
        have hms2 : min (cfg.tpm : ℚ) (st.tokenTokens + (cfg.tpm : ℚ) / 60 * (t - st.lastRefill)) ≤
            min (cfg.tpm : ℚ) (st.tokenTokens + (cfg.tpm : ℚ) / 60 * (a - st.lastRefill)) +
              (cfg.tpm : ℚ) / 60 * (t - a) := by
          rw [hsplit2]
          exact min_add_le _ _ _ (mul_nonneg ht0 (by linarith))
        rw [hmax]
        by_cases hadm : (st.attempt cfg t n).2 = .admitted
        · rw [if_pos hadm]
          rw [if_pos hadm] at f1 f2
          have hc1 : (st.attempt cfg t n).1.requestTokens ≤ (cfg.rpm : ℚ) := by
            have := min_le_left (cfg.rpm : ℚ)
              (st.requestTokens + (cfg.rpm : ℚ) / 60 * (t - st.lastRefill))
            linarith [f1.le.trans this]
          have hc2 : (st.attempt cfg t n).1.tokenTokens ≤ (cfg.tpm : ℚ) := by
            have := min_le_left (cfg.tpm : ℚ)
              (st.tokenTokens + (cfg.tpm : ℚ) / 60 * (t - st.lastRefill))
            have hn0 : (0 : ℚ) ≤ (n : ℚ) := Nat.cast_nonneg n
            linarith [f2.le.trans this]
          rw [min_eq_right hc1] at ihr
          rw [min_eq_right hc2] at ihu
          constructor
          · have hcount : reqUpTo b ((t, n) :: (runAttempts cfg (st.attempt cfg t n).1 rest).2) =
                reqUpTo b (runAttempts cfg (st.attempt cfg t n).1 rest).2 + 1 := by
              simp [reqUpTo, List.filter_cons, hb2]
            rw [hcount]
            push_cast
            linarith
          · have hcount : unitsUpTo b ((t, n) :: (runAttempts cfg (st.attempt cfg t n).1 rest).2) =
                n + unitsUpTo b (runAttempts cfg (st.attempt cfg t n).1 rest).2 := by
              simp [unitsUpTo, List.filter_cons, hb2]
            rw [hcount]
            push_cast
            linarith
        · rw [if_neg hadm]
          rw [if_neg hadm] at f1 f2
          have hc1 : (st.attempt cfg t n).1.requestTokens ≤ (cfg.rpm : ℚ) := by
            have := min_le_left (cfg.rpm : ℚ)
              (st.requestTokens + (cfg.rpm : ℚ) / 60 * (t - st.lastRefill))
            linarith [f1.le.trans this]
          have hc2 : (st.attempt cfg t n).1.tokenTokens ≤ (cfg.tpm : ℚ) := by
            have := min_le_left (cfg.tpm : ℚ)
              (st.tokenTokens + (cfg.tpm : ℚ) / 60 * (t - st.lastRefill))
            linarith [f2.le.trans this]
          rw [min_eq_right hc1] at ihr
          rw [min_eq_right hc2] at ihu
          exact ⟨by linarith, by linarith⟩
    · have hzero : ∀ e ∈ (runAttempts cfg st ((t, n) :: rest)).2,
          ¬((fun e : ℚ × ℕ => decide (e.1 ≤ b)) e = true) := by
        intro e he
        have hmem : e ∈ (t, n) :: rest :=
          (runAttempts_events_sublist cfg ((t, n) :: rest) st).subset he
        simp only [decide_eq_true_eq]
        rcases List.mem_cons.mp hmem with h1 | h1
        · rw [h1]
          exact hb2
        · have := hrest_lb e h1
          intro hc
          exact hb2 (by linarith)
      have hfil : (runAttempts cfg st ((t, n) :: rest)).2.filter
          (fun e : ℚ × ℕ => decide (e.1 ≤ b)) = [] :=
        List.filter_eq_nil_iff.mpr hzero
      have hm : (0 : ℚ) ≤ max 0 (b - a) := le_max_left _ _
      have hd0 : (0 : ℚ) ≤ a - st.lastRefill := by linarith
      have hn1 : (0 : ℚ) ≤ min (cfg.rpm : ℚ)
          (st.requestTokens + (cfg.rpm : ℚ) / 60 * (a - st.lastRefill)) :=
        le_min hrpm0 (by linarith [hinv.1, mul_nonneg hr0 hd0])
      have hn2 : (0 : ℚ) ≤ min (cfg.tpm : ℚ)
          (st.tokenTokens + (cfg.tpm : ℚ) / 60 * (a - st.lastRefill)) :=
        le_min htpm0 (by linarith [hinv.2.2.1, mul_nonneg ht0 hd0])
      constructor
      · simp only [reqUpTo, hfil, List.length_nil, Nat.cast_zero]
        linarith [mul_nonneg hr0 hm]
      · simp only [unitsUpTo, hfil, List.map_nil, List.sum_nil, Nat.cast_zero]
        linarith [mul_nonneg ht0 hm]

theorem window_append (s : ℚ) (e1 e2 : List (ℚ × ℕ)) :
    windowRequests s (e1 ++ e2) = windowRequests s e1 + windowRequests s e2 ∧
      windowUnits s (e1 ++ e2) = windowUnits s e1 + windowUnits s e2 := by
  constructor <;> simp [windowRequests, windowUnits, List.filter_append]

theorem window_zero_of_le (s : ℚ) (evs : List (ℚ × ℕ)) (h : ∀ e ∈ evs, e.1 ≤ s) :
    windowRequests s evs = 0 ∧ windowUnits s evs = 0 := by
  have hf : evs.filter (fun e : ℚ × ℕ => decide (s < e.1 ∧ e.1 ≤ s + 60)) = [] := by
    refine List.filter_eq_nil_iff.mpr (fun e he => ?_)
    have := h e he
    simp only [decide_eq_true_eq]
    rintro ⟨h1, _⟩
    linarith
  constructor
  · unfold windowRequests
    rw [hf]
    rfl
  · unfold windowUnits
    rw [hf]
    rfl

theorem window_eq_upTo (s : ℚ) (evs : List (ℚ × ℕ)) (h : ∀ e ∈ evs, s < e.1) :
    windowRequests s evs = reqUpTo (s + 60) evs ∧
      windowUnits s evs = unitsUpTo (s + 60) evs := by
  have hf : evs.filter (fun e : ℚ × ℕ => decide (s < e.1 ∧ e.1 ≤ s + 60)) =
      evs.filter (fun e : ℚ × ℕ => decide (e.1 ≤ s + 60)) := by
    refine List.filter_congr (fun x hx => ?_)
    have := h x hx
    simp [this]
  constructor
  · unfold windowRequests reqUpTo
    rw [hf]
  · unfold windowUnits unitsUpTo
    rw [hf]

theorem dropWhile_time_gt (s : ℚ) :
    ∀ l : List (ℚ × ℕ), l.Pairwise (fun x y => x.1 ≤ y.1) →
      ∀ e ∈ l.dropWhile (fun e : ℚ × ℕ => decide (e.1 ≤ s)), s < e.1 := by
  intro l
  induction l with
  | nil => intro _ e he; simp at he
  | cons x xs ih =>
    intro hpw e he
    by_cases hx : x.1 ≤ s
    · rw [List.dropWhile_cons_of_pos (by simpa using hx)] at he
      exact ih (List.pairwise_cons.mp hpw).2 e he
    · rw [List.dropWhile_cons_of_neg (by simpa using hx)] at he
      rcases List.mem_cons.mp he with h1 | h1
      · rw [h1]
        exact lt_of_not_le hx
      · have := (List.pairwise_cons.mp hpw).1 e h1
        have hxs := lt_of_not_le hx
        linarith

/-- C1 (amended): for every chronological trace of admission-loop iterations
against a limiter created at `t0`, the number of admissions in any trailing
60-second window `(s, s+60]` is at most `2 * rpm_limit`, and the admitted
token units in any such window total at most `2 * tpm_limit` — the initially
full bucket plus one window's worth of refill.  The factor 2 is tight: the
code's token bucket admits a full burst on top of the refill (see the
counterexample), so the spec's `1 ×` bound does not hold. -/
theorem claim_C1 (cfg : RLCfg) (t0 s : ℚ) (l : List (ℚ × ℕ)) (hv : cfg.Valid)
    (hch : Chron t0 l) :
    ((windowRequests s (runAttempts cfg (RLState.init cfg t0) l).2 : ℚ) ≤
        2 * (cfg.rpm : ℚ)) ∧
      ((windowUnits s (runAttempts cfg (RLState.init cfg t0) l).2 : ℚ) ≤
        2 * (cfg.tpm : ℚ)) := by
  obtain ⟨hmem, hpw⟩ := hch
  have hrpm0 : (0 : ℚ) ≤ (cfg.rpm : ℚ) := by
    exact_mod_cast (by linarith [hv.1] : (0 : ℤ) ≤ cfg.rpm)
  have htpm0 : (0 : ℚ) ≤ (cfg.tpm : ℚ) := by
    exact_mod_cast (by linarith [hv.2.1] : (0 : ℤ) ≤ cfg.tpm)
  have hr0 : (0 : ℚ) ≤ (cfg.rpm : ℚ) / 60 := by positivity
  have ht0 : (0 : ℚ) ≤ (cfg.tpm : ℚ) / 60 := by positivity
  have hR60 : (cfg.rpm : ℚ) / 60 * 60 = (cfg.rpm : ℚ) :=
    div_mul_cancel₀ _ (by norm_num)
  have hT60 : (cfg.tpm : ℚ) / 60 * 60 = (cfg.tpm : ℚ) :=
    div_mul_cancel₀ _ (by norm_num)
  by_cases hts : t0 ≤ s
  · have hsplit := List.takeWhile_append_dropWhile (fun e : ℚ × ℕ => decide (e.1 ≤ s)) l
    have hrun := runAttempts_append cfg (l.takeWhile (fun e : ℚ × ℕ => decide (e.1 ≤ s)))
      (l.dropWhile (fun e : ℚ × ℕ => decide (e.1 ≤ s))) (RLState.init cfg t0)
    rw [hsplit] at hrun
    rw [hrun]
    dsimp only
    set P := l.takeWhile (fun e : ℚ × ℕ => decide (e.1 ≤ s)) with hPdef
    set S := l.dropWhile (fun e : ℚ × ℕ => decide (e.1 ≤ s)) with hSdef
    set stA := (runAttempts cfg (RLState.init cfg t0) P).1 with hstA
    obtain ⟨wa1, wa2⟩ := window_append s (runAttempts cfg (RLState.init cfg t0) P).2
      (runAttempts cfg stA S).2
    rw [wa1, wa2]
    have hPev : ∀ e ∈ (runAttempts cfg (RLState.init cfg t0) P).2, e.1 ≤ s := by
      intro e he
      have hmemP : e ∈ P := (runAttempts_events_sublist cfg P _).subset he
      rw [hPdef] at hmemP
      simpa using List.mem_takeWhile_imp hmemP
    obtain ⟨z1, z2⟩ := window_zero_of_le s _ hPev
    rw [z1, z2]
    have hSgt : ∀ e ∈ S, s < e.1 := by
      rw [hSdef]
      exact dropWhile_time_gt s l hpw
    have hSpw : S.Pairwise (fun x y => x.1 ≤ y.1) := by
      rw [hSdef]
      exact List.Pairwise.sublist (List.dropWhile_sublist _) hpw
    have hSev : ∀ e ∈ (runAttempts cfg stA S).2, s < e.1 := fun e he =>
      hSgt e ((runAttempts_events_sublist cfg S stA).subset he)
    obtain ⟨u1, u2⟩ := window_eq_upTo s _ hSev
    rw [u1, u2]
    have hinvA : stA.Inv cfg := by
      rw [hstA]
      exact runAttempts_inv cfg hv P _ (init_inv hv t0)
    have hlrA : stA.lastRefill ≤ s := by
      rw [hstA]
      refine runAttempts_lastRefill_le cfg s P (RLState.init cfg t0) hts ?_
      intro e he
      rw [hPdef] at he
      simpa using List.mem_takeWhile_imp he
    obtain ⟨wr, wu⟩ := runAttempts_upTo_capped cfg hv (s + 60) S stA s hinvA hlrA
      (fun e he => le_of_lt (hSgt e he)) hSpw
    have hsub : s + 60 - s = (60 : ℚ) := by ring
    rw [hsub] at wr wu
    have hmax60 : max (0 : ℚ) 60 = 60 := by norm_num
    rw [hmax60, hR60] at wr
    rw [hmax60, hT60] at wu
    have hminr : min (cfg.rpm : ℚ)
        (stA.requestTokens + (cfg.rpm : ℚ) / 60 * (s - stA.lastRefill)) ≤ (cfg.rpm : ℚ) :=
      min_le_left _ _
    have hmint : min (cfg.tpm : ℚ)
        (stA.tokenTokens + (cfg.tpm : ℚ) / 60 * (s - stA.lastRefill)) ≤ (cfg.tpm : ℚ) :=
      min_le_left _ _
    constructor
    · push_cast
      linarith
    · push_cast
      linarith
  · have hst0 : s < t0 := lt_of_not_le hts
    have hev : ∀ e ∈ (runAttempts cfg (RLState.init cfg t0) l).2, s < e.1 := by
      intro e he
      have := hmem e ((runAttempts_events_sublist cfg l _).subset he)
      linarith
    obtain ⟨u1, u2⟩ := window_eq_upTo s _ hev
    rw [u1, u2]
    obtain ⟨wr, wu⟩ := runAttempts_upTo_capped cfg hv (s + 60) l (RLState.init cfg t0) t0
      (init_inv hv t0) (le_refl t0) hmem hpw
    have hmaxle : max (0 : ℚ) (s + 60 - t0) ≤ 60 := max_le (by norm_num) (by linarith)
    have hRmax : (cfg.rpm : ℚ) / 60 * max 0 (s + 60 - t0) ≤ (cfg.rpm : ℚ) := by
      calc (cfg.rpm : ℚ) / 60 * max 0 (s + 60 - t0) ≤ (cfg.rpm : ℚ) / 60 * 60 :=
            mul_le_mul_of_nonneg_left hmaxle hr0
        _ = (cfg.rpm : ℚ) := hR60
    have hTmax : (cfg.tpm : ℚ) / 60 * max 0 (s + 60 - t0) ≤ (cfg.tpm : ℚ) := by
      calc (cfg.tpm : ℚ) / 60 * max 0 (s + 60 - t0) ≤ (cfg.tpm : ℚ) / 60 * 60 :=
            mul_le_mul_of_nonneg_left hmaxle ht0
        _ = (cfg.tpm : ℚ) := hT60
    have hminr : min (cfg.rpm : ℚ)
        ((RLState.init cfg t0).requestTokens +
          (cfg.rpm : ℚ) / 60 * (t0 - (RLState.init cfg t0).lastRefill)) ≤ (cfg.rpm : ℚ) :=
      min_le_left _ _
    have hmint : min (cfg.tpm : ℚ)
        ((RLState.init cfg t0).tokenTokens +
          (cfg.tpm : ℚ) / 60 * (t0 - (RLState.init cfg t0).lastRefill)) ≤ (cfg.tpm : ℚ) :=
      min_le_left _ _
    constructor
    · linarith
    · linarith

theorem claim_C1_counterexample :
    windowRequests (-30)
        (runAttempts ⟨2, 1000, 0⟩ (RLState.init ⟨2, 1000, 0⟩ 0) [(0, 1), (0, 1), (30, 1)]).2
      = 3 ∧
      (⟨2, 1000, 0⟩ : RLCfg).rpm = 2 ∧ (2 : ℕ) < 3 ∧
      Chron 0 [(0, 1), (0, 1), (30, 1)] ∧ (30 : ℚ) - 60 = -30 := by
  have h1 : RLState.attempt (RLState.init ⟨2, 1000, 0⟩ 0) ⟨2, 1000, 0⟩ 0 1 =
      (⟨1, 999, 0, 0, 1⟩, .admitted) := by
    norm_num [RLState.attempt, RLState.checkDailyReset, RLState.refill, RLState.debit,
      RLState.init, dayOf]
  have h2 : RLState.attempt ⟨1, 999, 0, 0, 1⟩ ⟨2, 1000, 0⟩ 0 1 =
      (⟨0, 998, 0, 0, 2⟩, .admitted) := by
    norm_num [RLState.attempt, RLState.checkDailyReset, RLState.refill, RLState.debit, dayOf]
  have h3 : RLState.attempt ⟨0, 998, 0, 0, 2⟩ ⟨2, 1000, 0⟩ 30 1 =
      (⟨0, 999, 30, 0, 3⟩, .admitted) := by
    norm_num [RLState.attempt, RLState.checkDailyReset, RLState.refill, RLState.debit, dayOf]
  have hrun : (runAttempts ⟨2, 1000, 0⟩ (RLState.init ⟨2, 1000, 0⟩ 0)
      [(0, 1), (0, 1), (30, 1)]).2 = [(0, 1), (0, 1), (30, 1)] := by
    rw [runAttempts_cons, h1]
    dsimp only
    rw [if_pos rfl]
    rw [runAttempts_cons, h2]
    dsimp only
    rw [if_pos rfl]
    rw [runAttempts_cons, h3]
    dsimp only
    rw [if_pos rfl]
    rfl
  refine ⟨?_, rfl, by norm_num, ?_, by norm_num⟩
  · rw [hrun]
    norm_num [windowRequests, List.filter]
  · refine ⟨?_, ?_⟩
    · intro e he
      simp only [List.mem_cons, List.not_mem_nil, or_false] at he
      rcases he with rfl | rfl | rfl <;> norm_num
    · norm_num [List.pairwise_cons]

theorem claim_C1_witness :
    ((windowRequests 0
          (runAttempts ⟨2, 1000, 0⟩ (RLState.init ⟨2, 1000, 0⟩ 0) [(1, 5)]).2 : ℚ) ≤
        2 * (((⟨2, 1000, 0⟩ : RLCfg).rpm : ℤ) : ℚ)) ∧
      ((windowUnits 0
          (runAttempts ⟨2, 1000, 0⟩ (RLState.init ⟨2, 1000, 0⟩ 0) [(1, 5)]).2 : ℚ) ≤
        2 * (((⟨2, 1000, 0⟩ : RLCfg).tpm : ℤ) : ℚ)) :=
  claim_C1 ⟨2, 1000, 0⟩ 0 0 [(1, 5)] (by decide)
    ⟨by intro e he; simp at he; rw [he]; norm_num, by simp⟩

theorem claim_C9_witness :
    loadDiskCache .corrupt 5 = Except.ok [] ∧
      (∃ es, loadDiskCache (.parsed (Json.obj [("k",
          Json.obj [("expires_at", Json.num 7), ("value", Json.str "v")])])) 5 =
          Except.ok es) ∧
      ((5 : ℚ) < 7 ∧
        ∃ fields e,
          Json.obj [("k", Json.obj [("expires_at", Json.num 7),
              ("value", Json.str "v")])] = Json.obj fields ∧
            ("k", e) ∈ jsonObjToDict fields ∧
            (7 : ℚ) = entryExpiryQ e ∧ Json.str "v" = entryValueJ e) ∧
      (cacheSetPersist ([] : List (ℕ × CacheEntry)) 0 "v" 1 10 .ok).1 =
        (cacheSetPersist ([] : List (ℕ × CacheEntry)) 0 "v" 1 10 .ioFailure).1 :=
  ⟨(claim_C9.1 5).2.2,
    (claim_C9.2.1 (Json.obj [("k", Json.obj [("expires_at", Json.num 7),
      ("value", Json.str "v")])]) 5).mpr (by decide),
    claim_C9.2.2.1 (Json.obj [("k", Json.obj [("expires_at", Json.num 7),
        ("value", Json.str "v")])]) 5 [("k", (7 : ℚ), Json.str "v")] rfl
      ("k", (7 : ℚ), Json.str "v") (by simp),
    (claim_C9.2.2.2 ℕ inferInstance [] 0 "v" 1 10 .ok .ioFailure).1⟩
